import Mathlib

/-!
# Verification of the scan orchestration and memo lifecycle pipeline

Shallow embedding of the core of the `ai-hedge-fund` research pipeline:

* `src/src/services/scanner.py` — `ScanResult`, `Scanner.scan_batch`,
  `Scanner.run_full_scan`, `Scanner._extract_memo_from_signal`;
* `src/src/agents/memo_schema.py` — `InvestmentMemo`, `should_generate_memo`;
* `src/src/agents/bill_ackman.py` and `src/src/agents/michael_burry.py` —
  sub-analysis scoring and the signal aggregation rule;
* `app/backend/services/inbox_service.py`, `investment_service.py`,
  `analyst_service.py` and the corresponding repositories — the memo
  approval state machine, investment closing and analyst statistics.

Python floats are modelled as rationals (`ℚ`), Python `datetime`/`date`
values as abstract `Nat` timestamps supplied by the caller, and database
rows as Lean structures held in lists.  Per-ticker analysis (which performs
network I/O and can raise) is modelled as an oracle
`String → Except String (List InvestmentMemo)`.
-/

/-! ## Scanner data model (`src/src/services/scanner.py`, `memo_schema.py`) -/

/-- `InvestmentMemo` from `src/src/agents/memo_schema.py`.  The opaque
payload fields `id`, `metrics`, `generated_at` and the optional enrichment
fields (`catalysts`, `conviction_breakdown`, `macro_context`,
`position_sizing`), which no embedded operation reads, are omitted. -/
structure InvestmentMemo where
  ticker : String
  analyst : String
  signal : String
  conviction : Int
  thesis : String
  bull_case : List String
  bear_case : List String
  current_price : ℚ
  target_price : ℚ
  time_horizon : String
deriving DecidableEq, Repr

/-- `ScanConfig` from `src/src/services/scanner.py` (defaults:
conviction threshold 70, batch size 100).  `rate_limit_delay`,
`max_retries` and `timeout_per_ticker` only shape I/O pacing and are
omitted. -/
structure ScanConfig where
  conviction_threshold : Int := 70
  batch_size : Nat := 100
deriving DecidableEq, Repr

/-- `ScanResult` from `src/src/services/scanner.py`.  `scan_id`,
`start_time`, `end_time` and `analysts_used` are identity/bookkeeping
fields never read by the orchestration logic; the elapsed duration used by
`complete` is passed in explicitly instead. -/
structure ScanResult where
  status : String
  universe_name : String
  total_tickers : Nat
  conviction_threshold : Int
  tickers_scanned : Nat
  memos_generated : Nat
  high_conviction_memos : List InvestmentMemo
  errors : List String
  avg_processing_time_per_ticker : Option ℚ
deriving DecidableEq, Repr

/-- `ScanResult.add_memo`: append the memo and bump `memos_generated`
only when its conviction clears the result's threshold. -/
def ScanResult.add_memo (r : ScanResult) (memo : InvestmentMemo) : ScanResult :=
  if memo.conviction ≥ r.conviction_threshold then
    { r with
      high_conviction_memos := r.high_conviction_memos ++ [memo]
      memos_generated := r.memos_generated + 1 }
  else r

/-- `ScanResult.complete`: mark the scan completed and, when at least one
ticker was scanned, record the average processing time (`duration` stands
for `end_time - start_time`). -/
def ScanResult.complete (r : ScanResult) (duration : ℚ) : ScanResult :=
  { r with
    status := "completed"
    avg_processing_time_per_ticker :=
      if 0 < r.tickers_scanned then some (duration / r.tickers_scanned)
      else r.avg_processing_time_per_ticker }

/-- `ScanResult.fail`: mark the scan failed and record the error. -/
def ScanResult.fail (r : ScanResult) (error : String) : ScanResult :=
  { r with status := "failed", errors := r.errors ++ [error] }

/-- `should_generate_memo` from `src/src/agents/memo_schema.py`:
true iff `conviction >= 70`. -/
def should_generate_memo (conviction : Int) : Bool :=
  decide (conviction ≥ 70)

/-- The pydantic validation performed by the `InvestmentMemo` constructor:
`signal` must be the literal `"bullish"` or `"bearish"` and `conviction`
must lie in `[0, 100]`; a violation raises `ValidationError`, modelled as
`none`. -/
def mkValidatedMemo (ticker analyst signal : String) (conviction : Int)
    (thesis : String) (bull_case bear_case : List String)
    (current_price target_price : ℚ) (time_horizon : String) :
    Option InvestmentMemo :=
  if (signal = "bullish" ∨ signal = "bearish") ∧ 0 ≤ conviction ∧ conviction ≤ 100 then
    some ⟨ticker, analyst, signal, conviction, thesis, bull_case, bear_case,
          current_price, target_price, time_horizon⟩
  else none

/-- `Scanner._extract_memo_from_signal`.  The signal payload
(`signal`, `confidence`, `reasoning`) is passed as explicit arguments;
`current_price` is the price handed in by `analyze_ticker` and
`fetched_price` the result of the `get_current_price` call made when it is
`None` (`or 0.0` maps a missing fetch to `0`).  The surrounding
`try/except` returns `None` on any exception, which the validating
constructor models. -/
def extract_memo_from_signal (ticker analyst_name : String)
    (signal : String) (confidence : Int) (reasoning : String)
    (current_price : Option ℚ) (fetched_price : Option ℚ) :
    Option InvestmentMemo :=
  if signal = "neutral" ∨ should_generate_memo confidence = false then
    none
  else
    let cp : ℚ :=
      match current_price with
      | some p => p
      | none => fetched_price.getD 0
    let tp : ℚ := if signal = "bullish" then cp * (120 / 100) else cp * (80 / 100)
    mkValidatedMemo ticker analyst_name signal confidence reasoning
      (if signal = "bullish" then [reasoning] else ["See reasoning"])
      (if signal = "bearish" then [reasoning] else ["See reasoning"])
      cp tp "medium"

/-- One step of `Scanner.scan_batch`'s loop body: on success extend the
result with the ticker's memos and bump `tickers_scanned`; on an exception
append an error string and continue (the increment is inside the `try`
block, so a raising ticker is NOT counted). -/
def scan_ticker_step (analyze : String → Except String (List InvestmentMemo))
    (res : ScanResult) (ticker : String) : ScanResult :=
  match analyze ticker with
  | .ok memos =>
    let res2 := memos.foldl ScanResult.add_memo res
    { res2 with tickers_scanned := res2.tickers_scanned + 1 }
  | .error e =>
    { res with errors := res.errors ++ ["Error scanning " ++ ticker ++ ": " ++ e] }

/-- `Scanner.scan_batch` (the returned `batch_memos` list is unused by
`run_full_scan` and not modelled). -/
def scan_batch (analyze : String → Except String (List InvestmentMemo))
    (tickers : List String) (result : ScanResult) : ScanResult :=
  tickers.foldl (scan_ticker_step analyze) result

/-- The batch partition `universe[i:i+batch_size]` for
`i in range(0, len(universe), batch_size)`; `m` is `batch_size - 1`, so
chunks have size `m + 1`. -/
def chunksOfSucc (m : Nat) (l : List α) : List (List α) :=
  go l.length l
where
  go : Nat → List α → List (List α)
    | _, [] => []
    | 0, a :: l => [a :: l]
    | fuel + 1, a :: l => (a :: l.take m) :: go fuel (l.drop m)

/-- The fresh `ScanResult` built at the top of `run_full_scan`. -/
def initialScanResult (cfg : ScanConfig) (univ : List String)
    (universe_name : String) : ScanResult :=
  { status := "running"
    universe_name := universe_name
    total_tickers := univ.length
    conviction_threshold := cfg.conviction_threshold
    tickers_scanned := 0
    memos_generated := 0
    high_conviction_memos := []
    errors := []
    avg_processing_time_per_ticker := none }

/-- `Scanner.run_full_scan`: partition the universe into batches, scan
each batch (per-ticker failures are absorbed inside `scan_batch`), then
mark the result completed.  The inter-batch `asyncio.sleep` is pure
pacing.  In this model no exception can escape the batch loop, matching
the claim's "no driver-level failure" assumption; the `except` branch is
`ScanResult.fail`. -/
def run_full_scan (cfg : ScanConfig)
    (analyze : String → Except String (List InvestmentMemo))
    (univ : List String) (universe_name : String) (duration : ℚ) :
    ScanResult :=
  let result0 := initialScanResult cfg univ universe_name
  let batches := chunksOfSucc (cfg.batch_size - 1) univ
  let r := batches.foldl (fun res batch => scan_batch analyze batch res) result0
  r.complete duration

/-! ## Signal scoring and aggregation
(`src/src/agents/bill_ackman.py`, `src/src/agents/michael_burry.py`) -/

/-- A financial-statement line item as consumed by the Bill Ackman
sub-analyses (`search_line_items` result, newest first); every field may be
missing (`None`). -/
structure LineItem where
  revenue : Option ℚ := none
  operating_margin : Option ℚ := none
  free_cash_flow : Option ℚ := none
  debt_to_equity : Option ℚ := none
  total_liabilities : Option ℚ := none
  total_assets : Option ℚ := none
  dividends_and_other_cash_distributions : Option ℚ := none
  outstanding_shares : Option ℚ := none
deriving DecidableEq, Repr

/-- The slice of a `get_financial_metrics` snapshot read by the Ackman
sub-analyses. -/
structure MetricsItem where
  return_on_equity : Option ℚ := none
deriving DecidableEq, Repr

/-- `analyze_business_quality` from `src/src/agents/bill_ackman.py`
(score only; the accompanying detail strings are reporting-only).
Components: multi-period revenue growth (+2 strong / +1 positive),
operating margins above 15% in a majority of periods (+2), positive free
cash flow in a majority of periods (+1), latest ROE above 15% (+2). -/
def analyze_business_quality (metrics : List MetricsItem)
    (financial_line_items : List LineItem) : Int :=
  match metrics, financial_line_items with
  | [], _ => 0
  | _, [] => 0
  | latest_metrics :: _, _ :: _ =>
    let revenues := financial_line_items.filterMap (·.revenue)
    let s1 : Int :=
      if 2 ≤ revenues.length then
        let initial := revenues.getLast?.getD 0
        let final := revenues.head?.getD 0
        if initial ≠ 0 ∧ final ≠ 0 ∧ initial < final then
          let growth_rate := (final - initial) / |initial|
          if (1 : ℚ) / 2 < growth_rate then 2 else 1
        else 0
      else 0
    let op_margin_vals := financial_line_items.filterMap (·.operating_margin)
    let s2 : Int :=
      if op_margin_vals ≠ [] then
        if op_margin_vals.length / 2 + 1 ≤
            op_margin_vals.countP (fun m => decide ((15 : ℚ) / 100 < m)) then 2
        else 0
      else 0
    let fcf_vals := financial_line_items.filterMap (·.free_cash_flow)
    let s3 : Int :=
      if fcf_vals ≠ [] then
        if fcf_vals.length / 2 + 1 ≤ fcf_vals.countP (fun f => decide ((0 : ℚ) < f)) then 1
        else 0
      else 0
    let s4 : Int :=
      match latest_metrics.return_on_equity with
      | some roe => if roe ≠ 0 ∧ (15 : ℚ) / 100 < roe then 2 else 0
      | none => 0
    s1 + s2 + s3 + s4

/-- `analyze_financial_discipline` from `src/src/agents/bill_ackman.py`
(score only).  Components: debt-to-equity below 1 in a majority of periods
(+2, with a liabilities-to-assets fallback), a history of dividends (+1),
decreasing share count (+1). -/
def analyze_financial_discipline (metrics : List MetricsItem)
    (financial_line_items : List LineItem) : Int :=
  match metrics, financial_line_items with
  | [], _ => 0
  | _, [] => 0
  | _ :: _, _ :: _ =>
    let debt_to_equity_vals := financial_line_items.filterMap (·.debt_to_equity)
    let s1 : Int :=
      if debt_to_equity_vals ≠ [] then
        if debt_to_equity_vals.length / 2 + 1 ≤
            debt_to_equity_vals.countP (fun d => decide (d < 1)) then 2
        else 0
      else
        let liab_to_assets := financial_line_items.filterMap (fun item =>
          match item.total_liabilities, item.total_assets with
          | some l, some a => if l ≠ 0 ∧ a ≠ 0 ∧ 0 < a then some (l / a) else none
          | _, _ => none)
        if liab_to_assets ≠ [] then
          if liab_to_assets.length / 2 + 1 ≤
              liab_to_assets.countP (fun ratio => decide (ratio < 1 / 2)) then 2
          else 0
        else 0
    let dividends_list :=
      financial_line_items.filterMap (·.dividends_and_other_cash_distributions)
    let s2 : Int :=
      if dividends_list ≠ [] then
        if dividends_list.length / 2 + 1 ≤
            dividends_list.countP (fun d => decide (d < 0)) then 1
        else 0
      else 0
    let shares := financial_line_items.filterMap (·.outstanding_shares)
    let s3 : Int :=
      if 2 ≤ shares.length then
        if shares.head?.getD 0 < shares.getLast?.getD 0 then 1 else 0
      else 0
    s1 + s2 + s3

/-- `analyze_activism_potential` from `src/src/agents/bill_ackman.py`
(score only): +2 when revenue growth exceeds 15% while the average
operating margin is below 10%. -/
def analyze_activism_potential (financial_line_items : List LineItem) : Int :=
  match financial_line_items with
  | [] => 0
  | _ :: _ =>
    let revenues := financial_line_items.filterMap (·.revenue)
    let op_margins := financial_line_items.filterMap (·.operating_margin)
    if revenues.length < 2 ∨ op_margins = [] then 0
    else
      let initial := revenues.getLast?.getD 0
      let final := revenues.head?.getD 0
      let revenue_growth := if initial ≠ 0 then (final - initial) / |initial| else 0
      let avg_margin := op_margins.sum / op_margins.length
      if (15 : ℚ) / 100 < revenue_growth ∧ avg_margin < (10 : ℚ) / 100 then 2 else 0

/-- `analyze_valuation` from `src/src/agents/bill_ackman.py` (score only):
a five-year DCF on the latest free cash flow (6% growth, 10% discount,
terminal multiple 15); +3 when the margin of safety versus market cap
exceeds 30%, +1 when it exceeds 10%. -/
def analyze_valuation (financial_line_items : List LineItem)
    (market_cap : Option ℚ) : Int :=
  match financial_line_items, market_cap with
  | [], _ => 0
  | _, none => 0
  | latest :: _, some mc =>
    let fcf := latest.free_cash_flow.getD 0
    if fcf ≤ 0 then 0
    else
      let growth_rate : ℚ := 6 / 100
      let discount_rate : ℚ := 10 / 100
      let terminal_multiple : ℚ := 15
      let present_value := (List.range 5).foldl
        (fun pv year =>
          pv + fcf * (1 + growth_rate) ^ (year + 1) / (1 + discount_rate) ^ (year + 1))
        0
      let terminal_value :=
        fcf * (1 + growth_rate) ^ 5 * terminal_multiple / (1 + discount_rate) ^ 5
      let intrinsic_value := present_value + terminal_value
      let margin_of_safety := (intrinsic_value - mc) / mc
      if (3 : ℚ) / 10 < margin_of_safety then 3
      else if (1 : ℚ) / 10 < margin_of_safety then 1
      else 0

/-- The signal classification shared verbatim by the analyst drivers:
`total_score >= 0.7 * max_score` is bullish, `total_score <= 0.3 *
max_score` is bearish, anything else neutral. -/
def classify_signal (total_score max_score : Int) : String :=
  if (7 : ℚ) / 10 * max_score ≤ total_score then "bullish"
  else if (total_score : ℚ) ≤ (3 : ℚ) / 10 * max_score then "bearish"
  else "neutral"

/-- The aggregation in `bill_ackman_agent`: sum the four sub-analysis
scores but classify against the hardcoded `max_possible_score = 20`. -/
def bill_ackman_signal (metrics : List MetricsItem)
    (financial_line_items : List LineItem) (market_cap : Option ℚ) : String :=
  let total_score :=
    analyze_business_quality metrics financial_line_items
    + analyze_financial_discipline metrics financial_line_items
    + analyze_activism_potential financial_line_items
    + analyze_valuation financial_line_items market_cap
  let max_possible_score : Int := 20
  classify_signal total_score max_possible_score

/-- The aggregation in `michael_burry_agent`: each sub-analysis returns
`(score, max_score)` (constants 6, 3, 2, 1 for value, balance sheet,
insider activity, contrarian sentiment); both components are summed before
classification. -/
def michael_burry_signal (value_analysis balance_sheet_analysis
    insider_analysis contrarian_analysis : Int × Int) : String :=
  let total_score :=
    value_analysis.1 + balance_sheet_analysis.1
    + insider_analysis.1 + contrarian_analysis.1
  let max_score :=
    value_analysis.2 + balance_sheet_analysis.2
    + insider_analysis.2 + contrarian_analysis.2
  classify_signal total_score max_score

/-- Modelled from the spec: the claimed uniform aggregation rule — sum
all sub-scores and all sub-max-scores, then classify with the 0.70/0.30
thresholds.  Compared against the drivers above for claim C8. -/
def spec_aggregate_signal (sub_results : List (Int × Int)) : String :=
  classify_signal (sub_results.map (·.1)).sum (sub_results.map (·.2)).sum

/-! ## Michael Burry memo target price
(`generate_michael_burry_memo` in `src/src/agents/michael_burry.py`) -/

/-- The slice of `analysis_data` read by the target-price computation in
`generate_michael_burry_memo`: the aggregated signal, the market cap, and
from `valuation_analysis` the reasonable-case intrinsic value
(`intrinsic_value_range["reasonable"]`) and
`margin_of_safety_vs_fair_value`. -/
structure BurryAnalysisData where
  signal : String
  market_cap : Option ℚ
  reasonable_value : Option ℚ
  margin_of_safety : Option ℚ
deriving DecidableEq, Repr

/-- The `target_price_estimate` computation in
`generate_michael_burry_memo`.  Python truthiness of floats (`0.0` is
falsy) is made explicit; `.get(..., 0) or 0` maps both a missing and a
zero margin of safety to `0`.  Note that `analysis_data["signal"]` is
never consulted: the fallback is the same upward formula for bullish and
bearish analyses. -/
def burry_target_price_estimate (analysis_data : BurryAnalysisData)
    (current_price : ℚ) : ℚ :=
  match analysis_data.market_cap with
  | some mc =>
    if mc ≠ 0 ∧ current_price ≠ 0 ∧ 0 < current_price then
      let shares_outstanding := mc / current_price
      match analysis_data.reasonable_value with
      | some rv =>
        if rv ≠ 0 ∧ 0 < shares_outstanding then rv / shares_outstanding
        else current_price * (1 + max (analysis_data.margin_of_safety.getD 0) (15 / 100))
      | none =>
        current_price * (1 + max (analysis_data.margin_of_safety.getD 0) (15 / 100))
    else if current_price ≠ 0 then current_price * (115 / 100) else 0
  | none => if current_price ≠ 0 then current_price * (115 / 100) else 0

/-! ## Backend data model
(`app/backend/models/*.py`, repositories and services)

`app/backend/models/memo.py` itself is not in the source snapshot; the
`Memo` record below carries exactly the columns written by
`MemoRepository.create_memo` / read by the services (spec §3 lists the
same fields).  All behaviour proved about it comes from the repository and
service code, which is present. -/

/-- A `memos` table row.  `id` is the opaque unique identifier (a UUID in
the code, a counter-issued `Nat` here); timestamps are abstract `Nat`s. -/
structure Memo where
  id : Nat
  ticker : String
  analyst : String
  signal : String
  conviction : Int
  thesis : String
  bull_case : List String
  bear_case : List String
  current_price : ℚ
  target_price : ℚ
  time_horizon : String
  generated_at : Nat
  status : String
  reviewed_at : Option Nat
deriving DecidableEq, Repr

/-- An `investments` table row (`app/backend/models/investment.py`). -/
structure Investment where
  id : Nat
  memo_id : Nat
  ticker : String
  analyst : String
  signal : String
  entry_price : ℚ
  entry_date : Nat
  status : String
  exit_price : Option ℚ
  exit_date : Option Nat
deriving DecidableEq, Repr

/-- An `analyst_stats` table row (`app/backend/models/analyst_stats.py`),
minus the write-only `updated_at` timestamp. -/
structure AnalystStats where
  total_memos : Nat
  approved_count : Nat
  win_count : Nat
  total_return : ℚ
deriving DecidableEq, Repr

/-- The database visible to the backend services.  `stats` is total
because `get_or_create_stats` materialises a zeroed row on first
reference, so an absent row is observationally a zero row. -/
structure ResearchDB where
  memos : List Memo
  investments : List Investment
  stats : String → AnalystStats
  next_memo_id : Nat
  next_inv_id : Nat

/-- The empty database: no rows, all stats zero. -/
def ResearchDB.init : ResearchDB :=
  { memos := []
    investments := []
    stats := fun _ => ⟨0, 0, 0, 0⟩
    next_memo_id := 0
    next_inv_id := 0 }

/-- `MemoRepository.get_memo_by_id`: first row with the given primary
key. -/
def getMemoById (db : ResearchDB) (memo_id : Nat) : Option Memo :=
  db.memos.find? (fun m => m.id == memo_id)

/-- `InvestmentRepository.get_investment_by_id`. -/
def getInvestmentById (db : ResearchDB) (investment_id : Nat) : Option Investment :=
  db.investments.find? (fun i => i.id == investment_id)

/-- Overwrite the stats row of one analyst
(`AnalystStatsRepository.get_or_create_stats` followed by a field
update and commit). -/
def updateStatsRow (db : ResearchDB) (analyst : String)
    (f : AnalystStats → AnalystStats) : ResearchDB :=
  { db with stats := fun a => if a = analyst then f (db.stats a) else db.stats a }

/-- `InboxService.create_memo` (via `MemoRepository.create_memo`): insert
a pending memo with a fresh id and bump the analyst's `total_memos`
(`AnalystStatsRepository.increment_total_memos`).  Returns the updated
database and the created memo. -/
def createMemo (db : ResearchDB) (ticker analyst signal : String)
    (conviction : Int) (thesis : String) (bull_case bear_case : List String)
    (current_price target_price : ℚ) (time_horizon : String)
    (generated_at : Nat) : ResearchDB × Memo :=
  let memo : Memo :=
    { id := db.next_memo_id
      ticker := ticker
      analyst := analyst
      signal := signal
      conviction := conviction
      thesis := thesis
      bull_case := bull_case
      bear_case := bear_case
      current_price := current_price
      target_price := target_price
      time_horizon := time_horizon
      generated_at := generated_at
      status := "pending"
      reviewed_at := none }
  let db2 := { db with
    memos := db.memos ++ [memo]
    next_memo_id := db.next_memo_id + 1 }
  (updateStatsRow db2 analyst (fun s => { s with total_memos := s.total_memos + 1 }),
   memo)

/-- `InboxService.approve_memo`: not-found (`(None, None)`, no writes)
when the memo is missing or not pending; otherwise mark the memo approved
with `reviewed_at = now` (`MemoRepository.approve_memo`), create exactly
one active `Investment` whose `entry_price` is the override if supplied
else the memo's `current_price` and whose `entry_date` is today
(`InvestmentRepository.create_investment`), and bump the analyst's
`approved_count` (`AnalystStatsRepository.increment_approved_count`).
`today` stands for both `datetime.utcnow()` and `date.today()`. -/
def approveMemo (db : ResearchDB) (memo_id : Nat) (entry_price : Option ℚ)
    (today : Nat) : ResearchDB × Option (Memo × Investment) :=
  match getMemoById db memo_id with
  | none => (db, none)
  | some memo =>
    if memo.status ≠ "pending" then (db, none)
    else
      let actual_entry_price := entry_price.getD memo.current_price
      let approved_memo := { memo with status := "approved", reviewed_at := some today }
      let memos2 := db.memos.map (fun m => if m.id == memo_id then approved_memo else m)
      let investment : Investment :=
        { id := db.next_inv_id
          memo_id := memo_id
          ticker := memo.ticker
          analyst := memo.analyst
          signal := memo.signal
          entry_price := actual_entry_price
          entry_date := today
          status := "active"
          exit_price := none
          exit_date := none }
      let db2 := { db with
        memos := memos2
        investments := db.investments ++ [investment]
        next_inv_id := db.next_inv_id + 1 }
      (updateStatsRow db2 memo.analyst
        (fun s => { s with approved_count := s.approved_count + 1 }),
       some (approved_memo, investment))

/-- `InboxService.reject_memo` (via `MemoRepository.reject_memo`):
pending-only; marks the memo rejected with `reviewed_at = now`.  No
investment, no stats change. -/
def rejectMemo (db : ResearchDB) (memo_id : Nat) (today : Nat) :
    ResearchDB × Option Memo :=
  match getMemoById db memo_id with
  | none => (db, none)
  | some memo =>
    if memo.status ≠ "pending" then (db, none)
    else
      let rejected_memo := { memo with status := "rejected", reviewed_at := some today }
      ({ db with
         memos := db.memos.map (fun m => if m.id == memo_id then rejected_memo else m) },
       some rejected_memo)

/-- The signed return percentage computed in
`InvestmentService.close_investment` (and recomputed identically in
`AnalystService.refresh_analyst_stats`): bullish positions profit when the
exit exceeds the entry, every other signal is treated as a short. -/
def investmentReturnPct (signal : String) (entry_price exit_price : ℚ) : ℚ :=
  if signal = "bullish" then (exit_price - entry_price) / entry_price * 100
  else (entry_price - exit_price) / entry_price * 100

/-- `InvestmentService.close_investment`: not-found when the investment is
missing or not active; otherwise compute `return_pct` and
`is_win = return_pct > 0`, close the row
(`InvestmentRepository.close_investment` sets `status`, `exit_price`,
`exit_date`), and record the result on the analyst's stats
(`AnalystStatsRepository.record_investment_result`: `win_count += 1` when
winning, `total_return += return_pct` unconditionally). -/
def closeInvestment (db : ResearchDB) (investment_id : Nat)
    (exit_price : ℚ) (exit_date : Nat) : ResearchDB × Option Investment :=
  match getInvestmentById db investment_id with
  | none => (db, none)
  | some investment =>
    if investment.status ≠ "active" then (db, none)
    else
      let return_pct := investmentReturnPct investment.signal investment.entry_price exit_price
      let is_win := decide (0 < return_pct)
      let closed_investment := { investment with
        status := "closed"
        exit_price := some exit_price
        exit_date := some exit_date }
      let db2 := { db with
        investments := db.investments.map
          (fun i => if i.id == investment_id then closed_investment else i) }
      (updateStatsRow db2 investment.analyst (fun s =>
        { s with
          win_count := s.win_count + (if is_win then 1 else 0)
          total_return := s.total_return + return_pct }),
       some closed_investment)

/-- Rounding to two decimal places (`round(total_return, 2)`).  Python
rounds ties to even while `round` here rounds half upwards; no value in
this development sits on a tie. -/
def roundTo2 (x : ℚ) : ℚ :=
  (round (x * 100) : Int) / 100

/-- The recomputation loop of `AnalystService.refresh_analyst_stats`:
fold over the closed investments, skipping rows without an exit price,
accumulating `(win_count, total_return)`. -/
def refreshFold (l : List Investment) : Nat × ℚ :=
  l.foldl
    (fun acc i =>
      match i.exit_price with
      | none => acc
      | some px =>
        let return_pct := investmentReturnPct i.signal i.entry_price px
        (acc.1 + (if 0 < return_pct then 1 else 0), acc.2 + return_pct))
    (0, 0)

/-- The stats recomputed from scratch by
`AnalystService.refresh_analyst_stats`: memo counts from
`MemoRepository.count_memos_by_analyst` / `count_approved_by_analyst`,
win/return from all closed investments of the analyst
(`InvestmentRepository.get_closed_investments_by_analyst`), with
`total_return` rounded to two decimals. -/
def refreshComputedStats (db : ResearchDB) (analyst : String) : AnalystStats :=
  let total_memos := db.memos.countP (fun m => m.analyst == analyst)
  let approved_count :=
    db.memos.countP (fun m => m.analyst == analyst && m.status == "approved")
  let closed_investments :=
    db.investments.filter (fun i => i.analyst == analyst && i.status == "closed")
  let wr := refreshFold closed_investments
  { total_memos := total_memos
    approved_count := approved_count
    win_count := wr.1
    total_return := roundTo2 wr.2 }

/-- `AnalystService.refresh_analyst_stats`: overwrite the stored row with
the recomputed values (`AnalystStatsRepository.update_stats`). -/
def refreshAnalystStats (db : ResearchDB) (analyst : String) : ResearchDB :=
  updateStatsRow db analyst (fun _ => refreshComputedStats db analyst)

/-- Databases reachable from the empty database by any sequence of
create-memo, approve, reject and close operations. -/
inductive Reach : ResearchDB → Prop
  | init : Reach ResearchDB.init
  | create (db : ResearchDB) (ticker analyst signal : String) (conviction : Int)
      (thesis : String) (bull_case bear_case : List String)
      (current_price target_price : ℚ) (time_horizon : String) (generated_at : Nat) :
      Reach db →
      Reach (createMemo db ticker analyst signal conviction thesis bull_case
        bear_case current_price target_price time_horizon generated_at).1
  | approve (db : ResearchDB) (memo_id : Nat) (entry_price : Option ℚ) (today : Nat) :
      Reach db → Reach (approveMemo db memo_id entry_price today).1
  | reject (db : ResearchDB) (memo_id : Nat) (today : Nat) :
      Reach db → Reach (rejectMemo db memo_id today).1
  | close (db : ResearchDB) (investment_id : Nat) (exit_price : ℚ) (exit_date : Nat) :
      Reach db → Reach (closeInvestment db investment_id exit_price exit_date).1

/-! ## Ground-truth views of the database

Closed-form counts and sums used to state the invariants tying the
incrementally maintained `AnalystStats` rows to the transactional
history. -/

/-- Whether a closed-investment row contributes a win during
recomputation (has an exit price and a strictly positive recomputed
return). -/
def winContrib (i : Investment) : Bool :=
  match i.exit_price with
  | some px => decide (0 < investmentReturnPct i.signal i.entry_price px)
  | none => false

/-- The return a row contributes during recomputation (zero when the exit
price is missing). -/
def retContrib (i : Investment) : ℚ :=
  match i.exit_price with
  | some px => investmentReturnPct i.signal i.entry_price px
  | none => 0

/-- Ground truth for `total_memos`: all memos of the analyst. -/
def memoCountOf (db : ResearchDB) (analyst : String) : Nat :=
  db.memos.countP (fun m => m.analyst == analyst)

/-- Ground truth for `approved_count`: approved memos of the analyst. -/
def approvedCountOf (db : ResearchDB) (analyst : String) : Nat :=
  db.memos.countP (fun m => m.analyst == analyst && m.status == "approved")

/-- Ground truth for `win_count`: winning closed investments of the
analyst. -/
def winCountOf (db : ResearchDB) (analyst : String) : Nat :=
  db.investments.countP
    (fun i => (i.analyst == analyst && i.status == "closed") && winContrib i)

/-- Ground truth for the (unrounded) `total_return`: summed recomputed
returns over the closed investments of the analyst. -/
def totalReturnOf (db : ResearchDB) (analyst : String) : ℚ :=
  (db.investments.map
    (fun i => if i.analyst == analyst && i.status == "closed" then retContrib i else 0)).sum

/-- Unfolding the recomputation loop: the fold accumulates exactly the
win count and the return sum of the list. -/
theorem refreshFold_eq (l : List Investment) :
    refreshFold l = (l.countP winContrib, (l.map retContrib).sum) := by
  have key : ∀ (l : List Investment) (n : Nat) (q : ℚ),
      l.foldl
        (fun acc i =>
          match i.exit_price with
          | none => acc
          | some px =>
            let return_pct := investmentReturnPct i.signal i.entry_price px
            (acc.1 + (if 0 < return_pct then 1 else 0), acc.2 + return_pct))
        (n, q) = (n + l.countP winContrib, q + (l.map retContrib).sum) := by
    intro l
    induction l with
    | nil => intro n q; simp
    | cons a l ih =>
      intro n q
      simp only [List.foldl_cons, List.countP_cons, List.map_cons, List.sum_cons]
      cases hpx : a.exit_price with
      | none =>
        rw [ih]
        simp [winContrib, retContrib, hpx]
      | some px =>
        rw [ih]
        simp only [winContrib, retContrib, hpx, Prod.mk.injEq, decide_eq_true_eq]
        refine ⟨?_, by ring⟩
        by_cases hwin : 0 < investmentReturnPct a.signal a.entry_price px <;>
          simp only [hwin, if_true, if_false] <;> omega
  simpa [refreshFold] using key l 0 0

/-- Summing over a filtered list equals summing a zero-padded weight over
the whole list. -/
theorem sum_map_filter_eq_sum_ifWeight (p : Investment → Bool)
    (v : Investment → ℚ) (l : List Investment) :
    ((l.filter p).map v).sum = (l.map (fun i => if p i then v i else 0)).sum := by
  induction l with
  | nil => simp
  | cons a l ih =>
    by_cases hp : p a <;> simp [List.filter_cons, hp, ih]

/-- `refresh_analyst_stats` recomputes exactly the ground-truth counts
and the rounded ground-truth return sum. -/
theorem refreshComputedStats_eq (db : ResearchDB) (analyst : String) :
    refreshComputedStats db analyst =
      ⟨memoCountOf db analyst, approvedCountOf db analyst,
       winCountOf db analyst, roundTo2 (totalReturnOf db analyst)⟩ := by
  have hcomm : ∀ i : Investment,
      (winContrib i && (i.analyst == analyst && i.status == "closed"))
        = ((i.analyst == analyst && i.status == "closed") && winContrib i) := by
    intro i; rw [Bool.and_comm]
  simp only [refreshComputedStats, refreshFold_eq, memoCountOf, approvedCountOf,
    winCountOf, totalReturnOf, List.countP_filter, sum_map_filter_eq_sum_ifWeight,
    hcomm]

/-! ## Update-in-place lemmas

`UPDATE ... WHERE id = ?` is embedded as a `map` that rewrites the unique
row with the given primary key; these lemmas describe the effect on row
counts and sums, given distinct keys. -/

/-- Counting after an update-in-place: only the rewritten row's
contribution changes. -/
theorem countP_map_update {α : Type} (idf : α → Nat) (z : α) (iid : Nat)
    (p : α → Bool) :
    ∀ (l : List α), (l.map idf).Nodup → ∀ x ∈ l, idf x = iid →
      (l.map (fun y => if idf y == iid then z else y)).countP p
          + (if p x then 1 else 0)
        = l.countP p + (if p z then 1 else 0) := by
  intro l
  induction l with
  | nil => intro _ x hx; exact absurd hx (List.not_mem_nil x)
  | cons a l ih =>
    intro hnd x hx hid
    simp only [List.map_cons, List.nodup_cons] at hnd
    rcases List.mem_cons.mp hx with rfl | hmem
    · have hrest : l.map (fun y => if idf y == iid then z else y) = l := by
        have hfix : ∀ y ∈ l, (if idf y == iid then z else y) = y := by
          intro y hy
          have hne : (idf y == iid) = false := by
            apply beq_eq_false_iff_ne.mpr
            intro hcontra
            apply hnd.1
            have hmem2 : idf y ∈ l.map idf := List.mem_map_of_mem idf hy
            rwa [hcontra, ← hid] at hmem2
          rw [hne]; rfl
        calc l.map (fun y => if idf y == iid then z else y)
            = l.map id := List.map_congr_left hfix
          _ = l := List.map_id l
      have hhead : ((if idf x == iid then z else x)) = z := by
        rw [hid]; simp
      rw [List.map_cons, hhead, hrest, List.countP_cons, List.countP_cons]
      by_cases h1 : p z <;> by_cases h2 : p x <;>
        simp only [h1, h2, if_true, if_false] <;> omega
    · have hne : (idf a == iid) = false := by
        apply beq_eq_false_iff_ne.mpr
        intro hcontra
        apply hnd.1
        have hmem2 : idf x ∈ l.map idf := List.mem_map_of_mem idf hmem
        rwa [hid, ← hcontra] at hmem2
      have hih := ih hnd.2 x hmem hid
      have hhead : ((if idf a == iid then z else a)) = a := by rw [hne]; rfl
      rw [List.map_cons, hhead, List.countP_cons, List.countP_cons]
      by_cases h1 : p a <;> by_cases h2 : p x <;> by_cases h3 : p z <;>
        simp only [h1, h2, h3, if_true, if_false] at hih ⊢ <;> omega

/-- Summing a weight after an update-in-place: only the rewritten row's
contribution changes. -/
theorem sum_map_update {α : Type} (idf : α → Nat) (z : α) (iid : Nat)
    (w : α → ℚ) :
    ∀ (l : List α), (l.map idf).Nodup → ∀ x ∈ l, idf x = iid →
      ((l.map (fun y => if idf y == iid then z else y)).map w).sum + w x
        = (l.map w).sum + w z := by
  intro l
  induction l with
  | nil => intro _ x hx; exact absurd hx (List.not_mem_nil x)
  | cons a l ih =>
    intro hnd x hx hid
    simp only [List.map_cons, List.nodup_cons] at hnd
    rcases List.mem_cons.mp hx with rfl | hmem
    · have hrest : l.map (fun y => if idf y == iid then z else y) = l := by
        have hfix : ∀ y ∈ l, (if idf y == iid then z else y) = y := by
          intro y hy
          have hne : (idf y == iid) = false := by
            apply beq_eq_false_iff_ne.mpr
            intro hcontra
            apply hnd.1
            have hmem2 : idf y ∈ l.map idf := List.mem_map_of_mem idf hy
            rwa [hcontra, ← hid] at hmem2
          rw [hne]; rfl
        calc l.map (fun y => if idf y == iid then z else y)
            = l.map id := List.map_congr_left hfix
          _ = l := List.map_id l
      have hhead : ((if idf x == iid then z else x)) = z := by
        rw [hid]; simp
      rw [List.map_cons, hhead, hrest, List.map_cons, List.map_cons,
        List.sum_cons, List.sum_cons]
      ring
    · have hne : (idf a == iid) = false := by
        apply beq_eq_false_iff_ne.mpr
        intro hcontra
        apply hnd.1
        have hmem2 : idf x ∈ l.map idf := List.mem_map_of_mem idf hmem
        rwa [hid, ← hcontra] at hmem2
      have hih := ih hnd.2 x hmem hid
      have hhead : ((if idf a == iid then z else a)) = a := by rw [hne]; rfl
      rw [List.map_cons, hhead, List.map_cons, List.map_cons, List.sum_cons,
        List.sum_cons]
      linarith

/-- A successful `find?` by primary key returns a member bearing that
key. -/
theorem find?_by_id {α : Type} (idf : α → Nat) (iid : Nat) (l : List α) (x : α)
    (h : l.find? (fun y => idf y == iid) = some x) : x ∈ l ∧ idf x = iid :=
  ⟨List.mem_of_find?_eq_some h, by simpa using List.find?_some h⟩

/-- `approve_memo` on a missing memo: `(None, None)`, no writes. -/
theorem approveMemo_not_found (db : ResearchDB) (memo_id : Nat)
    (entry_price : Option ℚ) (today : Nat)
    (h : getMemoById db memo_id = none) :
    approveMemo db memo_id entry_price today = (db, none) := by
  unfold approveMemo
  rw [h]

/-- `approve_memo` on a non-pending memo: `(None, None)`, no writes. -/
theorem approveMemo_not_pending (db : ResearchDB) (memo_id : Nat)
    (entry_price : Option ℚ) (today : Nat) (m : Memo)
    (hfind : getMemoById db memo_id = some m) (hstat : m.status ≠ "pending") :
    approveMemo db memo_id entry_price today = (db, none) := by
  unfold approveMemo
  rw [hfind]
  simp [hstat]

/-- `approve_memo` on a pending memo: the full write set, spelled out. -/
theorem approveMemo_success (db : ResearchDB) (memo_id : Nat)
    (entry_price : Option ℚ) (today : Nat) (m : Memo)
    (hfind : getMemoById db memo_id = some m) (hstat : m.status = "pending") :
    (approveMemo db memo_id entry_price today).1 =
      { memos := db.memos.map (fun y =>
          if y.id == memo_id then { m with status := "approved", reviewed_at := some today }
          else y)
        investments := db.investments ++
          [{ id := db.next_inv_id
             memo_id := memo_id
             ticker := m.ticker
             analyst := m.analyst
             signal := m.signal
             entry_price := entry_price.getD m.current_price
             entry_date := today
             status := "active"
             exit_price := none
             exit_date := none }]
        stats := fun a =>
          if a = m.analyst then
            { db.stats a with approved_count := (db.stats a).approved_count + 1 }
          else db.stats a
        next_memo_id := db.next_memo_id
        next_inv_id := db.next_inv_id + 1 }
    ∧ (approveMemo db memo_id entry_price today).2 =
        some ({ m with status := "approved", reviewed_at := some today },
          { id := db.next_inv_id
            memo_id := memo_id
            ticker := m.ticker
            analyst := m.analyst
            signal := m.signal
            entry_price := entry_price.getD m.current_price
            entry_date := today
            status := "active"
            exit_price := none
            exit_date := none }) := by
  unfold approveMemo
  rw [hfind]
  simp only [hstat, ne_eq, not_true_eq_false, if_false, updateStatsRow]
  exact ⟨trivial, trivial⟩

/-- `reject_memo` on a missing memo: no writes. -/
theorem rejectMemo_not_found (db : ResearchDB) (memo_id today : Nat)
    (h : getMemoById db memo_id = none) :
    rejectMemo db memo_id today = (db, none) := by
  unfold rejectMemo
  rw [h]

/-- `reject_memo` on a non-pending memo: no writes. -/
theorem rejectMemo_not_pending (db : ResearchDB) (memo_id today : Nat) (m : Memo)
    (hfind : getMemoById db memo_id = some m) (hstat : m.status ≠ "pending") :
    rejectMemo db memo_id today = (db, none) := by
  unfold rejectMemo
  rw [hfind]
  simp [hstat]

/-- `reject_memo` on a pending memo: mark it rejected, stamp
`reviewed_at`; nothing else changes. -/
theorem rejectMemo_success (db : ResearchDB) (memo_id today : Nat) (m : Memo)
    (hfind : getMemoById db memo_id = some m) (hstat : m.status = "pending") :
    (rejectMemo db memo_id today).1 =
      { db with memos := db.memos.map (fun y =>
          if y.id == memo_id then { m with status := "rejected", reviewed_at := some today }
          else y) }
    ∧ (rejectMemo db memo_id today).2 =
        some { m with status := "rejected", reviewed_at := some today } := by
  unfold rejectMemo
  rw [hfind]
  simp only [hstat, ne_eq, not_true_eq_false, if_false]
  exact ⟨trivial, trivial⟩

/-- `close_investment` on a missing investment: no writes. -/
theorem closeInvestment_not_found (db : ResearchDB) (investment_id : Nat)
    (exit_price : ℚ) (exit_date : Nat)
    (h : getInvestmentById db investment_id = none) :
    closeInvestment db investment_id exit_price exit_date = (db, none) := by
  unfold closeInvestment
  rw [h]

/-- `close_investment` on a non-active investment: no writes. -/
theorem closeInvestment_not_active (db : ResearchDB) (investment_id : Nat)
    (exit_price : ℚ) (exit_date : Nat) (x : Investment)
    (hfind : getInvestmentById db investment_id = some x)
    (hstat : x.status ≠ "active") :
    closeInvestment db investment_id exit_price exit_date = (db, none) := by
  unfold closeInvestment
  rw [hfind]
  simp [hstat]

/-- `close_investment` on an active investment: the full write set. -/
theorem closeInvestment_success (db : ResearchDB) (investment_id : Nat)
    (exit_price : ℚ) (exit_date : Nat) (x : Investment)
    (hfind : getInvestmentById db investment_id = some x)
    (hstat : x.status = "active") :
    (closeInvestment db investment_id exit_price exit_date).1 =
      { db with
        investments := db.investments.map (fun y =>
          if y.id == investment_id then
            { x with
              status := "closed"
              exit_price := some exit_price
              exit_date := some exit_date }
          else y)
        stats := fun a =>
          if a = x.analyst then
            { db.stats a with
              win_count := (db.stats a).win_count +
                (if decide (0 < investmentReturnPct x.signal x.entry_price exit_price)
                 then 1 else 0)
              total_return := (db.stats a).total_return +
                investmentReturnPct x.signal x.entry_price exit_price }
          else db.stats a }
    ∧ (closeInvestment db investment_id exit_price exit_date).2 =
        some { x with
          status := "closed"
          exit_price := some exit_price
          exit_date := some exit_date } := by
  unfold closeInvestment
  rw [hfind]
  simp only [hstat, ne_eq, not_true_eq_false, if_false, updateStatsRow]
  exact ⟨trivial, trivial⟩

/-- The inductive invariant carried through every reachable database:
primary keys are below the issue counters and pairwise distinct, every
investment references a memo row, each memo has exactly one investment
precisely when approved, and every stats row equals its ground-truth
recomputation (unrounded). -/
structure DBInv (db : ResearchDB) : Prop where
  memo_lt : ∀ m ∈ db.memos, m.id < db.next_memo_id
  memo_nodup : (db.memos.map Memo.id).Nodup
  inv_lt : ∀ i ∈ db.investments, i.id < db.next_inv_id
  inv_nodup : (db.investments.map Investment.id).Nodup
  link : ∀ i ∈ db.investments, ∃ m ∈ db.memos, i.memo_id = m.id
  memo_count : ∀ m ∈ db.memos,
    db.investments.countP (fun i => i.memo_id == m.id)
      = if m.status = "approved" then 1 else 0
  stats_eq : ∀ a, db.stats a =
    ⟨memoCountOf db a, approvedCountOf db a, winCountOf db a, totalReturnOf db a⟩

/-- Rewriting a row in place does not change the stored primary keys,
provided the replacement carries the searched key. -/
theorem map_id_after_update {α : Type} (idf : α → Nat) (iid : Nat) (z : α)
    (hz : idf z = iid) (l : List α) :
    (l.map (fun y => if idf y == iid then z else y)).map idf = l.map idf := by
  rw [List.map_map]
  apply List.map_congr_left
  intro y _
  simp only [Function.comp_apply]
  by_cases h : idf y = iid
  · simp [h, hz]
  · simp [h]

/-- `create_memo` preserves the database invariant. -/
theorem createMemo_inv (db : ResearchDB) (ticker analyst signal : String)
    (conviction : Int) (thesis : String) (bull_case bear_case : List String)
    (current_price target_price : ℚ) (time_horizon : String) (generated_at : Nat)
    (h : DBInv db) :
    DBInv (createMemo db ticker analyst signal conviction thesis bull_case
      bear_case current_price target_price time_horizon generated_at).1 := by
  simp only [createMemo, updateStatsRow]
  constructor
  · -- memo_lt
    intro m hm
    simp only [List.mem_append, List.mem_singleton] at hm
    rcases hm with hm | rfl
    · exact Nat.lt_succ_of_lt (h.memo_lt m hm)
    · exact Nat.lt_succ_self _
  · -- memo_nodup
    simp only [List.map_append, List.map_cons, List.map_nil]
    rw [List.nodup_append]
    refine ⟨h.memo_nodup, List.nodup_singleton _, ?_⟩
    intro x hx hx1
    simp only [List.mem_singleton] at hx1
    obtain ⟨m, hm, hmid⟩ := List.mem_map.mp hx
    have := h.memo_lt m hm
    omega
  · -- inv_lt
    exact h.inv_lt
  · -- inv_nodup
    exact h.inv_nodup
  · -- link
    intro i hi
    obtain ⟨m, hm, hmi⟩ := h.link i hi
    exact ⟨m, List.mem_append_left _ hm, hmi⟩
  · -- memo_count
    intro m hm
    simp only [List.mem_append, List.mem_singleton] at hm
    rcases hm with hm | rfl
    · exact h.memo_count m hm
    · have hzero : db.investments.countP (fun i => i.memo_id == db.next_memo_id) = 0 := by
        rw [List.countP_eq_zero]
        intro i hi
        obtain ⟨m', hm', hmi⟩ := h.link i hi
        have := h.memo_lt m' hm'
        simp only [beq_iff_eq, decide_eq_true_eq]
        omega
      simpa using hzero
  · -- stats_eq
    intro a
    simp only [memoCountOf, approvedCountOf, winCountOf, totalReturnOf,
      List.countP_append, List.countP_cons, List.countP_nil, List.map_append,
      List.map_cons, List.map_nil, List.sum_append, List.sum_cons, List.sum_nil]
    rw [h.stats_eq a]
    by_cases ha : a = analyst
    · subst ha
      simp only [if_true, AnalystStats.mk.injEq, beq_self_eq_true, if_pos rfl]
      refine ⟨?_, ?_, ?_, ?_⟩
      · simp [memoCountOf]
      · simp [approvedCountOf]
      · simp [winCountOf]
      · simp [totalReturnOf]
    · have hba : (analyst == a) = false := by
        simp only [beq_eq_false_iff_ne, ne_eq]
        exact fun hcontra => ha hcontra.symm
      simp only [ha, if_false, AnalystStats.mk.injEq]
      refine ⟨?_, ?_, ?_, ?_⟩
      · simp [memoCountOf, hba]
      · simp [approvedCountOf, hba]
      · simp [winCountOf]
      · simp [totalReturnOf]



/-- `approve_memo` preserves the database invariant. -/
theorem approveMemo_inv (db : ResearchDB) (memo_id : Nat)
    (entry_price : Option ℚ) (today : Nat) (h : DBInv db) :
    DBInv (approveMemo db memo_id entry_price today).1 := by
  cases hfind : getMemoById db memo_id with
  | none => rw [approveMemo_not_found db memo_id entry_price today hfind]; exact h
  | some m =>
    by_cases hstat : m.status = "pending"
    · obtain ⟨hmem, hmid⟩ := find?_by_id Memo.id memo_id db.memos m hfind
      rw [(approveMemo_success db memo_id entry_price today m hfind hstat).1]
      have hamid : (Memo.id { m with status := "approved", reviewed_at := some today })
          = memo_id := hmid
      constructor
      · -- memo_lt
        intro m2 hm2
        obtain ⟨m1, hm1, rfl⟩ := List.mem_map.mp hm2
        by_cases hc : (m1.id == memo_id) = true
        · simp only [hc, if_true]
          exact hmid ▸ h.memo_lt m hmem
        · simp only [hc, Bool.false_eq_true, if_false]
          exact h.memo_lt m1 hm1
      · -- memo_nodup
        rw [map_id_after_update Memo.id memo_id _ hamid]
        exact h.memo_nodup
      · -- inv_lt
        intro i hi
        simp only [List.mem_append, List.mem_singleton] at hi
        rcases hi with hi | rfl
        · exact Nat.lt_succ_of_lt (h.inv_lt i hi)
        · exact Nat.lt_succ_self _
      · -- inv_nodup
        simp only [List.map_append, List.map_cons, List.map_nil]
        rw [List.nodup_append]
        refine ⟨h.inv_nodup, List.nodup_singleton _, ?_⟩
        intro x hx hx1
        simp only [List.mem_singleton] at hx1
        obtain ⟨i, hi, hiid⟩ := List.mem_map.mp hx
        have := h.inv_lt i hi
        omega
      · -- link
        intro i hi
        simp only [List.mem_append, List.mem_singleton] at hi
        rcases hi with hi | rfl
        · obtain ⟨m1, hm1, hmi⟩ := h.link i hi
          refine ⟨(if m1.id == memo_id then
              { m with status := "approved", reviewed_at := some today } else m1),
            List.mem_map_of_mem _ hm1, ?_⟩
          by_cases hc : (m1.id == memo_id) = true
          · simp only [hc, if_true]
            have h1 : m1.id = memo_id := by simpa using hc
            rw [hmi, h1, hmid]
          · simp only [hc, Bool.false_eq_true, if_false]
            exact hmi
        · refine ⟨{ m with status := "approved", reviewed_at := some today }, ?_, hamid.symm⟩
          have hin : (if m.id == memo_id then
              { m with status := "approved", reviewed_at := some today } else m)
              ∈ db.memos.map (fun y => if y.id == memo_id then
                { m with status := "approved", reviewed_at := some today } else y) :=
            List.mem_map_of_mem _ hmem
          simpa [hmid] using hin
      · -- memo_count
        intro m2 hm2
        obtain ⟨m1, hm1, rfl⟩ := List.mem_map.mp hm2
        rw [List.countP_append]
        by_cases hc : (m1.id == memo_id) = true
        · simp only [hc, if_true]
          have hcount0 := h.memo_count m hmem
          rw [hstat, if_neg (by decide : ¬ ("pending" : String) = "approved")] at hcount0
          rw [hcount0]
          simp [List.countP_cons, hmid]
        · simp only [hc, Bool.false_eq_true, if_false]
          have hm1ne : m1.id ≠ memo_id := by simpa using hc
          have hmne : memo_id ≠ m1.id := fun hcontra => hm1ne hcontra.symm
          have hsingle : List.countP (fun i => i.memo_id == m1.id)
              [({ id := db.next_inv_id, memo_id := memo_id, ticker := m.ticker,
                  analyst := m.analyst, signal := m.signal,
                  entry_price := entry_price.getD m.current_price,
                  entry_date := today, status := "active", exit_price := none,
                  exit_date := none } : Investment)] = 0 := by
            simp only [List.countP_cons, List.countP_nil]
            simp [hmne]
          rw [hsingle, h.memo_count m1 hm1]
          simp
      · -- stats_eq
        intro a
        dsimp only [memoCountOf, approvedCountOf, winCountOf, totalReturnOf]
        rw [h.stats_eq a]
        dsimp only [memoCountOf, approvedCountOf, winCountOf, totalReturnOf]
        have htotal := countP_map_update Memo.id
          { m with status := "approved", reviewed_at := some today } memo_id
          (fun mm => mm.analyst == a) db.memos h.memo_nodup m hmem hmid
        have happrove := countP_map_update Memo.id
          { m with status := "approved", reviewed_at := some today } memo_id
          (fun mm => mm.analyst == a && mm.status == "approved")
          db.memos h.memo_nodup m hmem hmid
        by_cases hba : m.analyst = a
        · have hbt : (m.analyst == a) = true := beq_iff_eq.mpr hba
          simp [hstat, hbt] at htotal happrove
          rw [if_pos hba.symm]
          simp only [AnalystStats.mk.injEq]
          refine ⟨?_, ?_, ?_, ?_⟩
          · simp
            omega
          · simp
            omega
          · simp
          · simp
        · have hbt : (m.analyst == a) = false := beq_eq_false_iff_ne.mpr hba
          simp [hstat, hbt] at htotal happrove
          rw [if_neg (fun hcontra => hba hcontra.symm)]
          simp only [AnalystStats.mk.injEq]
          refine ⟨?_, ?_, ?_, ?_⟩
          · simp
            omega
          · simp
            omega
          · simp
          · simp
    · rw [approveMemo_not_pending db memo_id entry_price today m hfind hstat]
      exact h

/-- `reject_memo` preserves the database invariant. -/
theorem rejectMemo_inv (db : ResearchDB) (memo_id today : Nat) (h : DBInv db) :
    DBInv (rejectMemo db memo_id today).1 := by
  cases hfind : getMemoById db memo_id with
  | none => rw [rejectMemo_not_found db memo_id today hfind]; exact h
  | some m =>
    by_cases hstat : m.status = "pending"
    · obtain ⟨hmem, hmid⟩ := find?_by_id Memo.id memo_id db.memos m hfind
      rw [(rejectMemo_success db memo_id today m hfind hstat).1]
      have hrmid : (Memo.id { m with status := "rejected", reviewed_at := some today })
          = memo_id := hmid
      constructor
      · -- memo_lt
        intro m2 hm2
        obtain ⟨m1, hm1, rfl⟩ := List.mem_map.mp hm2
        by_cases hc : (m1.id == memo_id) = true
        · simp only [hc, if_true]
          exact hmid ▸ h.memo_lt m hmem
        · simp only [hc, Bool.false_eq_true, if_false]
          exact h.memo_lt m1 hm1
      · -- memo_nodup
        rw [map_id_after_update Memo.id memo_id _ hrmid]
        exact h.memo_nodup
      · -- inv_lt
        exact h.inv_lt
      · -- inv_nodup
        exact h.inv_nodup
      · -- link
        intro i hi
        obtain ⟨m1, hm1, hmi⟩ := h.link i hi
        refine ⟨(if m1.id == memo_id then
            { m with status := "rejected", reviewed_at := some today } else m1),
          List.mem_map_of_mem _ hm1, ?_⟩
        by_cases hc : (m1.id == memo_id) = true
        · simp only [hc, if_true]
          have h1 : m1.id = memo_id := by simpa using hc
          rw [hmi, h1, hmid]
        · simp only [hc, Bool.false_eq_true, if_false]
          exact hmi
      · -- memo_count
        intro m2 hm2
        obtain ⟨m1, hm1, rfl⟩ := List.mem_map.mp hm2
        by_cases hc : (m1.id == memo_id) = true
        · simp only [hc, if_true]
          have hcount0 := h.memo_count m hmem
          rw [hstat, if_neg (by decide : ¬ ("pending" : String) = "approved")] at hcount0
          rw [if_neg (by decide : ¬ ("rejected" : String) = "approved")]
          exact hcount0
        · simp only [hc, Bool.false_eq_true, if_false]
          exact h.memo_count m1 hm1
      · -- stats_eq
        intro a
        dsimp only [memoCountOf, approvedCountOf, winCountOf, totalReturnOf]
        rw [h.stats_eq a]
        dsimp only [memoCountOf, approvedCountOf, winCountOf, totalReturnOf]
        have htotal := countP_map_update Memo.id
          { m with status := "rejected", reviewed_at := some today } memo_id
          (fun mm => mm.analyst == a) db.memos h.memo_nodup m hmem hmid
        have happrove := countP_map_update Memo.id
          { m with status := "rejected", reviewed_at := some today } memo_id
          (fun mm => mm.analyst == a && mm.status == "approved")
          db.memos h.memo_nodup m hmem hmid
        simp [hstat] at htotal happrove
        simp only [AnalystStats.mk.injEq]
        refine ⟨?_, ?_, ?_, ?_⟩
        · simp
          omega
        · simp
          omega
        · trivial
        · trivial
    · rw [rejectMemo_not_pending db memo_id today m hfind hstat]
      exact h

/-- `close_investment` preserves the database invariant. -/
theorem closeInvestment_inv (db : ResearchDB) (investment_id : Nat)
    (exit_price : ℚ) (exit_date : Nat) (h : DBInv db) :
    DBInv (closeInvestment db investment_id exit_price exit_date).1 := by
  cases hfind : getInvestmentById db investment_id with
  | none => rw [closeInvestment_not_found db investment_id exit_price exit_date hfind]; exact h
  | some x =>
    by_cases hstat : x.status = "active"
    · obtain ⟨hmem, hxid⟩ := find?_by_id Investment.id investment_id db.investments x hfind
      rw [(closeInvestment_success db investment_id exit_price exit_date x hfind hstat).1]
      have hzid : (Investment.id { x with
          status := "closed"
          exit_price := some exit_price
          exit_date := some exit_date }) = investment_id := hxid
      constructor
      · -- memo_lt
        exact h.memo_lt
      · -- memo_nodup
        exact h.memo_nodup
      · -- inv_lt
        intro i2 hi2
        obtain ⟨i1, hi1, rfl⟩ := List.mem_map.mp hi2
        by_cases hc : (i1.id == investment_id) = true
        · simp only [hc, if_true]
          exact hxid ▸ h.inv_lt x hmem
        · simp only [hc, Bool.false_eq_true, if_false]
          exact h.inv_lt i1 hi1
      · -- inv_nodup
        rw [map_id_after_update Investment.id investment_id _ hzid]
        exact h.inv_nodup
      · -- link
        intro i2 hi2
        obtain ⟨i1, hi1, rfl⟩ := List.mem_map.mp hi2
        by_cases hc : (i1.id == investment_id) = true
        · simp only [hc, if_true]
          exact h.link x hmem
        · simp only [hc, Bool.false_eq_true, if_false]
          exact h.link i1 hi1
      · -- memo_count
        intro m2 hm2
        dsimp only
        have hcount := countP_map_update Investment.id
          { x with
            status := "closed"
            exit_price := some exit_price
            exit_date := some exit_date } investment_id
          (fun i => i.memo_id == m2.id) db.investments h.inv_nodup x hmem hxid
        dsimp only at hcount
        rw [← h.memo_count m2 hm2]
        omega
      · -- stats_eq
        intro a
        dsimp only [memoCountOf, approvedCountOf, winCountOf, totalReturnOf]
        rw [h.stats_eq a]
        dsimp only [memoCountOf, approvedCountOf, winCountOf, totalReturnOf]
        have hwin := countP_map_update Investment.id
          { x with
            status := "closed"
            exit_price := some exit_price
            exit_date := some exit_date } investment_id
          (fun i => (i.analyst == a && i.status == "closed") && winContrib i)
          db.investments h.inv_nodup x hmem hxid
        have hret := sum_map_update Investment.id
          { x with
            status := "closed"
            exit_price := some exit_price
            exit_date := some exit_date } investment_id
          (fun i => if i.analyst == a && i.status == "closed" then retContrib i else 0)
          db.investments h.inv_nodup x hmem hxid
        by_cases hba : x.analyst = a
        · have hbt : (x.analyst == a) = true := beq_iff_eq.mpr hba
          simp [hstat, hbt, winContrib, retContrib] at hwin hret
          rw [if_pos hba.symm]
          simp only [AnalystStats.mk.injEq]
          refine ⟨trivial, trivial, ?_, ?_⟩
          · simp [winContrib]
            omega
          · simp [retContrib]
            linarith
        · have hbt : (x.analyst == a) = false := beq_eq_false_iff_ne.mpr hba
          simp [hstat, hbt, winContrib, retContrib] at hwin hret
          rw [if_neg (fun hcontra => hba hcontra.symm)]
          simp only [AnalystStats.mk.injEq]
          refine ⟨trivial, trivial, ?_, ?_⟩
          · simp [winContrib]
            omega
          · simp [retContrib]
            linarith
    · rw [closeInvestment_not_active db investment_id exit_price exit_date x hfind hstat]
      exact h

/-- Every reachable database satisfies the invariant. -/
theorem reach_inv (db : ResearchDB) (h : Reach db) : DBInv db := by
  induction h with
  | init =>
    constructor <;>
      simp [ResearchDB.init, memoCountOf, approvedCountOf, winCountOf, totalReturnOf]
  | create db ticker analyst signal conviction thesis bull_case bear_case
      current_price target_price time_horizon generated_at hdb ih =>
    exact createMemo_inv db ticker analyst signal conviction thesis bull_case
      bear_case current_price target_price time_horizon generated_at ih
  | approve db memo_id entry_price today hdb ih =>
    exact approveMemo_inv db memo_id entry_price today ih
  | reject db memo_id today hdb ih =>
    exact rejectMemo_inv db memo_id today ih
  | close db investment_id exit_price exit_date hdb ih =>
    exact closeInvestment_inv db investment_id exit_price exit_date ih

/-! ## Scanner bookkeeping lemmas -/

/-- Whether the per-ticker analysis oracle succeeds (no exception). -/
def analyzeOk (r : Except String (List InvestmentMemo)) : Bool :=
  match r with
  | .ok _ => true
  | .error _ => false

/-- `add_memo` touches only the memo list and its counter. -/
theorem add_memo_fields (r : ScanResult) (m : InvestmentMemo) :
    (r.add_memo m).tickers_scanned = r.tickers_scanned
    ∧ (r.add_memo m).errors = r.errors
    ∧ (r.add_memo m).status = r.status
    ∧ (r.add_memo m).conviction_threshold = r.conviction_threshold := by
  unfold ScanResult.add_memo
  split <;> simp

/-- Folding `add_memo` over a memo list touches only the memo fields. -/
theorem foldl_add_memo_fields (memos : List InvestmentMemo) :
    ∀ r : ScanResult,
      (memos.foldl ScanResult.add_memo r).tickers_scanned = r.tickers_scanned
      ∧ (memos.foldl ScanResult.add_memo r).errors = r.errors
      ∧ (memos.foldl ScanResult.add_memo r).status = r.status
      ∧ (memos.foldl ScanResult.add_memo r).conviction_threshold
          = r.conviction_threshold := by
  induction memos with
  | nil => intro r; exact ⟨rfl, rfl, rfl, rfl⟩
  | cons m memos ih =>
    intro r
    have h1 := add_memo_fields r m
    have h2 := ih (r.add_memo m)
    simp only [List.foldl_cons]
    exact ⟨h2.1.trans h1.1, h2.2.1.trans h1.2.1, h2.2.2.1.trans h1.2.2.1,
      h2.2.2.2.trans h1.2.2.2⟩

/-- `scan_batch` counts exactly the tickers whose analysis did not raise,
logs one error per raising ticker, and leaves `status` and the conviction
threshold alone. -/
theorem scan_batch_spec (analyze : String → Except String (List InvestmentMemo))
    (tickers : List String) :
    ∀ r : ScanResult,
      (scan_batch analyze tickers r).tickers_scanned
          = r.tickers_scanned + tickers.countP (fun t => analyzeOk (analyze t))
      ∧ (scan_batch analyze tickers r).errors.length
          = r.errors.length + tickers.countP (fun t => !analyzeOk (analyze t))
      ∧ (scan_batch analyze tickers r).status = r.status
      ∧ (scan_batch analyze tickers r).conviction_threshold
          = r.conviction_threshold := by
  induction tickers with
  | nil => intro r; simp [scan_batch]
  | cons t tickers ih =>
    intro r
    simp only [scan_batch, List.foldl_cons, List.countP_cons]
    cases hres : analyze t with
    | ok memos =>
      have hfold := foldl_add_memo_fields memos r
      have hstep := ih { memos.foldl ScanResult.add_memo r with
        tickers_scanned := (memos.foldl ScanResult.add_memo r).tickers_scanned + 1 }
      simp only [scan_batch] at hstep
      simp only [scan_ticker_step, hres]
      refine ⟨?_, ?_, ?_, ?_⟩
      · rw [hstep.1]
        simp [hfold.1, analyzeOk, hres]
        omega
      · rw [hstep.2.1]
        simp [hfold.2.1, analyzeOk, hres]
      · rw [hstep.2.2.1]
        simp [hfold.2.2.1]
      · rw [hstep.2.2.2]
        simp [hfold.2.2.2]
    | error e =>
      have hstep := ih { r with errors := r.errors ++ ["Error scanning " ++ t ++ ": " ++ e] }
      simp only [scan_batch] at hstep
      simp only [scan_ticker_step, hres]
      refine ⟨?_, ?_, ?_, ?_⟩
      · rw [hstep.1]
        simp [analyzeOk, hres]
      · rw [hstep.2.1]
        simp [analyzeOk, hres]
        omega
      · exact hstep.2.2.1
      · exact hstep.2.2.2

/-- `scan_batch` over a concatenation composes. -/
theorem scan_batch_append (analyze : String → Except String (List InvestmentMemo))
    (l1 l2 : List String) (r : ScanResult) :
    scan_batch analyze (l1 ++ l2) r = scan_batch analyze l2 (scan_batch analyze l1 r) := by
  simp [scan_batch, List.foldl_append]

/-- The batches produced by the partition concatenate back to the
universe. -/
theorem chunksOfSucc_join (m : Nat) : ∀ l : List α, (chunksOfSucc m l).flatten = l := by
  have key : ∀ (fuel : Nat) (l : List α), l.length ≤ fuel →
      (chunksOfSucc.go m fuel l).flatten = l := by
    intro fuel
    induction fuel with
    | zero =>
      intro l hl
      rw [Nat.le_zero, List.length_eq_zero] at hl
      subst hl
      simp [chunksOfSucc.go]
    | succ n ih =>
      intro l hl
      cases l with
      | nil => simp [chunksOfSucc.go]
      | cons a t =>
        rw [chunksOfSucc.go]
        simp only [List.flatten_cons]
        rw [ih (t.drop m) (by
          simp only [List.length_drop]
          simp only [List.length_cons] at hl
          omega)]
        simp [List.take_append_drop]
  intro l
  exact key l.length l le_rfl

/-- Folding `scan_batch` over the batch partition is `scan_batch` on the
whole universe. -/
theorem foldl_scan_batch_batches (analyze : String → Except String (List InvestmentMemo))
    (batches : List (List String)) :
    ∀ r : ScanResult,
      batches.foldl (fun res batch => scan_batch analyze batch res) r
        = scan_batch analyze batches.flatten r := by
  induction batches with
  | nil => intro r; simp [scan_batch]
  | cons b batches ih =>
    intro r
    simp only [List.foldl_cons, List.flatten_cons]
    rw [ih, scan_batch_append]

/-- `complete` only sets `status` and the average-time field. -/
theorem complete_fields (r : ScanResult) (duration : ℚ) :
    (r.complete duration).tickers_scanned = r.tickers_scanned
    ∧ (r.complete duration).errors = r.errors
    ∧ (r.complete duration).status = "completed"
    ∧ (r.complete duration).memos_generated = r.memos_generated
    ∧ (r.complete duration).high_conviction_memos = r.high_conviction_memos := by
  unfold ScanResult.complete
  exact ⟨rfl, rfl, rfl, rfl, rfl⟩

/-- Full characterization of the counters of `run_full_scan`: the scan
always completes, `tickers_scanned` counts the tickers whose analysis
returned normally, and `errors` has one entry per raising ticker. -/
theorem run_full_scan_spec (cfg : ScanConfig)
    (analyze : String → Except String (List InvestmentMemo))
    (univ : List String) (universe_name : String) (duration : ℚ) :
    (run_full_scan cfg analyze univ universe_name duration).tickers_scanned
        = univ.countP (fun t => analyzeOk (analyze t))
    ∧ (run_full_scan cfg analyze univ universe_name duration).errors.length
        = univ.countP (fun t => !analyzeOk (analyze t))
    ∧ (run_full_scan cfg analyze univ universe_name duration).status = "completed" := by
  simp only [run_full_scan]
  rw [foldl_scan_batch_batches, chunksOfSucc_join]
  have hbatch := scan_batch_spec analyze univ (initialScanResult cfg univ universe_name)
  have hcomp := complete_fields (scan_batch analyze univ
    (initialScanResult cfg univ universe_name)) duration
  refine ⟨?_, ?_, hcomp.2.2.1⟩
  · rw [hcomp.1, hbatch.1]
    simp [initialScanResult]
  · rw [hcomp.2.1, hbatch.2.1]
    simp [initialScanResult]

/-- `ScanResult` states reachable by the scanner's mutations: the fresh
result built by `run_full_scan`, `add_memo`, the `tickers_scanned`
increment, an error append, `complete` and `fail`. -/
inductive ScanReach : ScanResult → Prop
  | init (cfg : ScanConfig) (univ : List String) (universe_name : String) :
      ScanReach (initialScanResult cfg univ universe_name)
  | add (r : ScanResult) (memo : InvestmentMemo) :
      ScanReach r → ScanReach (r.add_memo memo)
  | tick (r : ScanResult) :
      ScanReach r → ScanReach { r with tickers_scanned := r.tickers_scanned + 1 }
  | err (r : ScanResult) (e : String) :
      ScanReach r → ScanReach { r with errors := r.errors ++ [e] }
  | complete (r : ScanResult) (duration : ℚ) :
      ScanReach r → ScanReach (r.complete duration)
  | fail (r : ScanResult) (e : String) :
      ScanReach r → ScanReach (r.fail e)

/-- Reachable scan results keep `memos_generated` in lock-step with the
stored memo list. -/
theorem scanReach_memos_generated (r : ScanResult) (h : ScanReach r) :
    r.memos_generated = r.high_conviction_memos.length := by
  induction h with
  | init cfg univ universe_name => simp [initialScanResult]
  | add r memo hr ih =>
    unfold ScanResult.add_memo
    split
    · simp [ih]
    · exact ih
  | tick r hr ih => exact ih
  | err r e hr ih => exact ih
  | complete r duration hr ih => exact ih
  | fail r e hr ih => exact ih

/-- The oracle of the C1 scenario: three tickers, the second raises
during data fetch. -/
def c1Analyze : String → Except String (List InvestmentMemo) :=
  fun t => if t = "T2" then .error "boom" else .ok []

/-- C1 counterexample: in a 3-ticker scan where ticker #2 raises,
`run_full_scan` reports `tickers_scanned = 2` — not 3 as claimed — with
one error entry and status `"completed"`: the `tickers_scanned += 1` in
`Scanner.scan_batch` sits inside the `try` block, so a raising ticker is
not counted. -/
theorem C1_counterexample :
    (run_full_scan {} c1Analyze ["T1", "T2", "T3"] "custom" 10).tickers_scanned = 2
    ∧ (run_full_scan {} c1Analyze ["T1", "T2", "T3"] "custom" 10).tickers_scanned ≠ 3
    ∧ (run_full_scan {} c1Analyze ["T1", "T2", "T3"] "custom" 10).errors
        = ["Error scanning T2: boom"]
    ∧ (run_full_scan {} c1Analyze ["T1", "T2", "T3"] "custom" 10).status
        = "completed" := by
  refine ⟨by decide, by decide, by decide, by decide⟩

/-- C1 (amended): per-ticker failures never abort the scan — the run
always completes with one error entry per raising ticker — but
`tickers_scanned` counts only the tickers whose processing did not raise;
in the 3-ticker scenario with one failure it is 2, not 3. -/
theorem C1_scan_failure_isolation :
    (∀ (cfg : ScanConfig) (analyze : String → Except String (List InvestmentMemo))
       (univ : List String) (universe_name : String) (duration : ℚ),
      (run_full_scan cfg analyze univ universe_name duration).tickers_scanned
          = univ.countP (fun t => analyzeOk (analyze t))
      ∧ (run_full_scan cfg analyze univ universe_name duration).errors.length
          = univ.countP (fun t => !analyzeOk (analyze t))
      ∧ (run_full_scan cfg analyze univ universe_name duration).status = "completed")
    ∧ (run_full_scan {} c1Analyze ["T1", "T2", "T3"] "custom" 10).tickers_scanned = 2
    ∧ (run_full_scan {} c1Analyze ["T1", "T2", "T3"] "custom" 10).errors.length = 1
    ∧ (run_full_scan {} c1Analyze ["T1", "T2", "T3"] "custom" 10).status = "completed" :=
  ⟨fun cfg analyze univ universe_name duration =>
      run_full_scan_spec cfg analyze univ universe_name duration,
   by decide, by decide, by decide⟩

/-- A sample high-conviction memo used to exercise `add_memo`. -/
def sampleMemo : InvestmentMemo :=
  { ticker := "AAPL"
    analyst := "Michael Burry"
    signal := "bullish"
    conviction := 85
    thesis := "cheap"
    bull_case := ["cheap"]
    bear_case := ["See reasoning"]
    current_price := 100
    target_price := 120
    time_horizon := "medium" }

/-- C10: in every reachable `ScanResult`, `memos_generated` equals the
length of `high_conviction_memos`; `add_memo` appends and increments
together when the memo's conviction meets the result's threshold and
leaves the result untouched otherwise. -/
theorem C10_memos_generated_invariant :
    (∀ r : ScanResult, ScanReach r →
      r.memos_generated = r.high_conviction_memos.length)
    ∧ (∀ (r : ScanResult) (memo : InvestmentMemo),
        (memo.conviction ≥ r.conviction_threshold →
          r.add_memo memo = { r with
            high_conviction_memos := r.high_conviction_memos ++ [memo]
            memos_generated := r.memos_generated + 1 })
        ∧ (¬ memo.conviction ≥ r.conviction_threshold → r.add_memo memo = r)) := by
  refine ⟨scanReach_memos_generated, ?_⟩
  intro r memo
  constructor
  · intro hge
    unfold ScanResult.add_memo
    rw [if_pos hge]
  · intro hlt
    unfold ScanResult.add_memo
    rw [if_neg hlt]

/-- C10 witness: the invariant and both `add_memo` branches evaluated on
concrete scan results. -/
theorem C10_memos_generated_invariant_witness :
    ((initialScanResult {} ["AAPL"] "u").add_memo sampleMemo).memos_generated
      = ((initialScanResult {} ["AAPL"] "u").add_memo sampleMemo).high_conviction_memos.length
    ∧ (initialScanResult {} ["AAPL"] "u").add_memo sampleMemo
        = { initialScanResult {} ["AAPL"] "u" with
            high_conviction_memos :=
              (initialScanResult {} ["AAPL"] "u").high_conviction_memos ++ [sampleMemo]
            memos_generated := (initialScanResult {} ["AAPL"] "u").memos_generated + 1 }
    ∧ { sampleMemo with conviction := 10 }.conviction <
        (initialScanResult {} ["AAPL"] "u").conviction_threshold
    ∧ (initialScanResult {} ["AAPL"] "u").add_memo { sampleMemo with conviction := 10 }
        = initialScanResult {} ["AAPL"] "u" :=
  ⟨C10_memos_generated_invariant.1 _
      (ScanReach.add _ sampleMemo (ScanReach.init {} ["AAPL"] "u")),
   (C10_memos_generated_invariant.2 (initialScanResult {} ["AAPL"] "u") sampleMemo).1
      (by decide),
   by decide,
   (C10_memos_generated_invariant.2 (initialScanResult {} ["AAPL"] "u")
      { sampleMemo with conviction := 10 }).2 (by decide)⟩

/-- C5: for scorer outputs (a signal among bullish/bearish/neutral and a
confidence in [0, 100]), `Scanner._extract_memo_from_signal` produces a
memo exactly when the signal is not neutral and the confidence clears the
`should_generate_memo` threshold of 70: confidence 70 passes, 69 does
not, and a neutral signal never produces a memo. -/
theorem C5_memo_gate :
    (∀ (ticker analyst_name signal : String) (confidence : Int)
       (reasoning : String) (current_price fetched_price : Option ℚ),
      (signal = "bullish" ∨ signal = "bearish" ∨ signal = "neutral") →
      0 ≤ confidence → confidence ≤ 100 →
      ((extract_memo_from_signal ticker analyst_name signal confidence reasoning
          current_price fetched_price).isSome
        ↔ (signal ≠ "neutral" ∧ 70 ≤ confidence)))
    ∧ (extract_memo_from_signal "AAPL" "Michael Burry" "bullish" 70 "r"
        (some 10) none).isSome = true
    ∧ extract_memo_from_signal "AAPL" "Michael Burry" "bullish" 69 "r"
        (some 10) none = none
    ∧ extract_memo_from_signal "AAPL" "Michael Burry" "neutral" 100 "r"
        (some 10) none = none := by
  refine ⟨?_, by decide, by decide, by decide⟩
  intro ticker analyst_name signal confidence reasoning current_price fetched_price
    hsig hc0 hc100
  by_cases h70 : 70 ≤ confidence
  · rcases hsig with rfl | rfl | rfl <;>
      simp [extract_memo_from_signal, should_generate_memo, mkValidatedMemo,
        h70, hc0, hc100]
  · rcases hsig with rfl | rfl | rfl <;>
      simp [extract_memo_from_signal, should_generate_memo, mkValidatedMemo, h70]

/-- C5 witness: the gate applied at signal `"bullish"`, confidence 70. -/
theorem C5_memo_gate_witness :
    (extract_memo_from_signal "AAPL" "Michael Burry" "bullish" 70 "r"
        (some 10) none).isSome
      ↔ (("bullish" : String) ≠ "neutral" ∧ (70 : Int) ≤ 70) :=
  C5_memo_gate.1 "AAPL" "Michael Burry" "bullish" 70 "r" (some 10) none
    (Or.inl rfl) (by decide) (by decide)

/-- C9 counterexample: a bearish Michael Burry analysis with market cap
1000, no reasonable-case intrinsic value and margin of safety 0 receives
the target estimate `100 × (1 + max(0, 0.15)) = 115`, which lies above
the current price of 100 — the claimed mirrored (downward) derivation for
bearish signals does not happen: the computation never reads the
signal. -/
theorem C9_counterexample :
    burry_target_price_estimate
        { signal := "bearish", market_cap := some 1000,
          reasonable_value := none, margin_of_safety := some 0 } 100 = 115
    ∧ ¬ burry_target_price_estimate
        { signal := "bearish", market_cap := some 1000,
          reasonable_value := none, margin_of_safety := some 0 } 100 < 100 := by
  have h : burry_target_price_estimate
      { signal := "bearish", market_cap := some 1000,
        reasonable_value := none, margin_of_safety := some 0 } 100 = 115 := by
    simp only [burry_target_price_estimate, Option.getD_some]
    norm_num
  refine ⟨h, ?_⟩
  rw [h]
  norm_num

/-- C9 (amended): when no reasonable-case intrinsic value is available
(and market cap and price are usable), `generate_michael_burry_memo`
derives the target estimate as `current_price × (1 + max(margin_of_safety,
0.15))` for bullish and bearish analyses alike — there is no mirroring;
the mirrored derivation lives in `Scanner._extract_memo_from_signal`,
which instead applies a fixed ±20%: `current_price × 1.20` for bullish
and `current_price × 0.80` for bearish memos. -/
theorem C9_target_price_derivation :
    (∀ (signal : String) (mc current_price : ℚ) (margin_of_safety : Option ℚ),
      mc ≠ 0 → 0 < current_price →
      burry_target_price_estimate
          { signal := signal, market_cap := some mc,
            reasonable_value := none, margin_of_safety := margin_of_safety }
          current_price
        = current_price * (1 + max (margin_of_safety.getD 0) (15 / 100)))
    ∧ (∀ (ticker analyst_name : String) (confidence : Int) (reasoning : String)
         (cp : ℚ) (fetched_price : Option ℚ) (memo : InvestmentMemo),
        extract_memo_from_signal ticker analyst_name "bullish" confidence reasoning
            (some cp) fetched_price = some memo →
          memo.target_price = cp * (120 / 100))
    ∧ (∀ (ticker analyst_name : String) (confidence : Int) (reasoning : String)
         (cp : ℚ) (fetched_price : Option ℚ) (memo : InvestmentMemo),
        extract_memo_from_signal ticker analyst_name "bearish" confidence reasoning
            (some cp) fetched_price = some memo →
          memo.target_price = cp * (80 / 100)) := by
  refine ⟨?_, ?_, ?_⟩
  · intro signal mc current_price margin_of_safety hmc hcp
    have hcpne : current_price ≠ 0 := ne_of_gt hcp
    simp [burry_target_price_estimate, hmc, hcpne, hcp]
  · intro ticker analyst_name confidence reasoning cp fetched_price memo hmemo
    simp only [extract_memo_from_signal, mkValidatedMemo] at hmemo
    split at hmemo
    · exact absurd hmemo (by simp)
    · split at hmemo
      · simp only [Option.some.injEq] at hmemo
        rw [← hmemo]
        simp
      · exact absurd hmemo (by simp)
  · intro ticker analyst_name confidence reasoning cp fetched_price memo hmemo
    simp only [extract_memo_from_signal, mkValidatedMemo] at hmemo
    split at hmemo
    · exact absurd hmemo (by simp)
    · split at hmemo
      · simp only [Option.some.injEq] at hmemo
        rw [← hmemo]
        simp
      · exact absurd hmemo (by simp)

/-- C9 witness: the Burry fallback at margin of safety 0.30 (bearish, no
mirroring: `100 × 1.30 = 130`) and the scanner's mirrored targets at
price 100. -/
theorem C9_target_price_derivation_witness :
    burry_target_price_estimate
        { signal := "bearish", market_cap := some 1000,
          reasonable_value := none, margin_of_safety := some (30 / 100) } 100
      = 100 * (1 + max ((30 : ℚ) / 100) (15 / 100))
    ∧ sampleMemo.target_price = 100 * ((120 : ℚ) / 100) :=
  ⟨C9_target_price_derivation.1 "bearish" 1000 100 (some (30 / 100))
      (by norm_num) (by norm_num),
   C9_target_price_derivation.2.1 "AAPL" "Michael Burry" 85 "cheap" 100 none
      sampleMemo (by
        simp only [extract_memo_from_signal, mkValidatedMemo, should_generate_memo,
          sampleMemo]
        norm_num
        decide)⟩

/-- The business-quality score never exceeds 2+2+1+2 = 7. -/
theorem analyze_business_quality_le (metrics : List MetricsItem)
    (items : List LineItem) : analyze_business_quality metrics items ≤ 7 := by
  unfold analyze_business_quality
  cases metrics with
  | nil => norm_num
  | cons latest rest =>
    cases items with
    | nil => norm_num
    | cons it its =>
      rcases latest with ⟨roe⟩
      cases roe with
      | none =>
        dsimp only
        split_ifs <;> norm_num
      | some r =>
        dsimp only
        split_ifs <;> norm_num

/-- The financial-discipline score never exceeds 2+1+1 = 4. -/
theorem analyze_financial_discipline_le (metrics : List MetricsItem)
    (items : List LineItem) : analyze_financial_discipline metrics items ≤ 4 := by
  unfold analyze_financial_discipline
  cases metrics with
  | nil => norm_num
  | cons latest rest =>
    cases items with
    | nil => norm_num
    | cons it its =>
      dsimp only
      split_ifs <;> norm_num

/-- The activism-potential score never exceeds 2. -/
theorem analyze_activism_potential_le (items : List LineItem) :
    analyze_activism_potential items ≤ 2 := by
  unfold analyze_activism_potential
  cases items with
  | nil => norm_num
  | cons it its =>
    dsimp only
    split_ifs <;> norm_num

/-- The valuation score never exceeds 3. -/
theorem analyze_valuation_le (items : List LineItem) (market_cap : Option ℚ) :
    analyze_valuation items market_cap ≤ 3 := by
  unfold analyze_valuation
  cases items with
  | nil => norm_num
  | cons it its =>
    cases market_cap with
    | none => norm_num
    | some mc =>
      dsimp only
      split_ifs <;> norm_num

/-- Concrete metrics snapshot for the Bill Ackman evaluation: ROE 20%. -/
def ackmanMetricsX : List MetricsItem := [{ return_on_equity := some (1 / 5) }]

/-- Concrete line items (newest first) for the Bill Ackman evaluation:
revenue doubling, 20% margins, positive FCF, low leverage, dividends
paid, shrinking share count. -/
def ackmanItemsX : List LineItem :=
  [{ revenue := some 200
     operating_margin := some (1 / 5)
     free_cash_flow := some 100
     debt_to_equity := some (1 / 2)
     dividends_and_other_cash_distributions := some (-10)
     outstanding_shares := some 90 },
   { revenue := some 100
     operating_margin := some (1 / 5)
     free_cash_flow := some 50
     debt_to_equity := some (1 / 2)
     dividends_and_other_cash_distributions := some (-10)
     outstanding_shares := some 100 }]

/-- Line items exhibiting activism potential: strong revenue growth with
5% margins. -/
def ackmanItemsZ : List LineItem :=
  [{ revenue := some 200, operating_margin := some (1 / 20) },
   { revenue := some 100, operating_margin := some (1 / 20) }]

theorem ackman_quality_X :
    analyze_business_quality ackmanMetricsX ackmanItemsX = 7 := by
  simp only [ackmanMetricsX, ackmanItemsX, analyze_business_quality,
    List.filterMap_cons, List.filterMap_nil]
  norm_num
  simp

theorem ackman_discipline_X :
    analyze_financial_discipline ackmanMetricsX ackmanItemsX = 4 := by
  simp only [ackmanMetricsX, ackmanItemsX, analyze_financial_discipline,
    List.filterMap_cons, List.filterMap_nil]
  norm_num
  simp

theorem ackman_activism_X :
    analyze_activism_potential ackmanItemsX = 0 := by
  simp only [ackmanItemsX, analyze_activism_potential,
    List.filterMap_cons, List.filterMap_nil]
  norm_num

theorem ackman_activism_Z :
    analyze_activism_potential ackmanItemsZ = 2 := by
  simp only [ackmanItemsZ, analyze_activism_potential,
    List.filterMap_cons, List.filterMap_nil]
  norm_num
  simp

theorem ackman_valuation_X_1400 :
    analyze_valuation ackmanItemsX (some 1400) = 1 := by
  simp only [ackmanItemsX, analyze_valuation]
  norm_num [List.range_succ]

theorem ackman_valuation_X_1000 :
    analyze_valuation ackmanItemsX (some 1000) = 3 := by
  simp only [ackmanItemsX, analyze_valuation]
  norm_num [List.range_succ]

/-- C8 counterexample: on a concrete input whose sub-analysis scores are
7, 4, 0 and 1 (against attainable sub-maxima 7, 4, 2, 3, i.e. a summed
max of 16), `bill_ackman_agent` classifies against its hardcoded
`max_possible_score = 20` and returns `"neutral"` (12 < 0.7·20), while
the claimed rule — classify against the summed sub-max-scores — returns
`"bullish"` (12 ≥ 0.7·16 = 11.2). -/
theorem C8_counterexample :
    analyze_business_quality ackmanMetricsX ackmanItemsX = 7
    ∧ analyze_financial_discipline ackmanMetricsX ackmanItemsX = 4
    ∧ analyze_activism_potential ackmanItemsX = 0
    ∧ analyze_valuation ackmanItemsX (some 1400) = 1
    ∧ bill_ackman_signal ackmanMetricsX ackmanItemsX (some 1400) = "neutral"
    ∧ spec_aggregate_signal [(7, 7), (4, 4), (0, 2), (1, 3)] = "bullish"
    ∧ bill_ackman_signal ackmanMetricsX ackmanItemsX (some 1400)
        ≠ spec_aggregate_signal [(7, 7), (4, 4), (0, 2), (1, 3)] := by
  have hq := ackman_quality_X
  have hd := ackman_discipline_X
  have ha := ackman_activism_X
  have hv := ackman_valuation_X_1400
  have hsig : bill_ackman_signal ackmanMetricsX ackmanItemsX (some 1400) = "neutral" := by
    unfold bill_ackman_signal
    rw [hq, hd, ha, hv]
    norm_num [classify_signal]
  have hspec : spec_aggregate_signal [(7, 7), (4, 4), (0, 2), (1, 3)] = "bullish" := by
    simp only [spec_aggregate_signal, List.map_cons, List.map_nil, List.sum_cons,
      List.sum_nil]
    norm_num [classify_signal]
  refine ⟨hq, hd, ha, hv, hsig, hspec, ?_⟩
  rw [hsig, hspec]
  decide

/-- C8 (amended): every analyst driver classifies with the same 0.70/0.30
threshold rule, and `michael_burry_agent` applies it to the summed
sub-scores and summed sub-max-scores, but `bill_ackman_agent` classifies
the summed sub-scores against the hardcoded constant 20 — not the summed
sub-maxima, which are 7, 4, 2 and 3 (16 in total, each attained by some
input and never exceeded). -/
theorem C8_aggregation_rule :
    (∀ value_analysis balance_sheet_analysis insider_analysis
       contrarian_analysis : Int × Int,
      michael_burry_signal value_analysis balance_sheet_analysis
          insider_analysis contrarian_analysis
        = spec_aggregate_signal [value_analysis, balance_sheet_analysis,
            insider_analysis, contrarian_analysis])
    ∧ (∀ (metrics : List MetricsItem) (items : List LineItem) (mc : Option ℚ),
        bill_ackman_signal metrics items mc
          = classify_signal
              (analyze_business_quality metrics items
                + analyze_financial_discipline metrics items
                + analyze_activism_potential items
                + analyze_valuation items mc) 20)
    ∧ (∀ (metrics : List MetricsItem) (items : List LineItem),
        analyze_business_quality metrics items ≤ 7)
    ∧ (∀ (metrics : List MetricsItem) (items : List LineItem),
        analyze_financial_discipline metrics items ≤ 4)
    ∧ (∀ items : List LineItem, analyze_activism_potential items ≤ 2)
    ∧ (∀ (items : List LineItem) (mc : Option ℚ), analyze_valuation items mc ≤ 3)
    ∧ analyze_business_quality ackmanMetricsX ackmanItemsX = 7
    ∧ analyze_financial_discipline ackmanMetricsX ackmanItemsX = 4
    ∧ analyze_activism_potential ackmanItemsZ = 2
    ∧ analyze_valuation ackmanItemsX (some 1000) = 3 := by
  refine ⟨?_, ?_, analyze_business_quality_le, analyze_financial_discipline_le,
    analyze_activism_potential_le, analyze_valuation_le, ackman_quality_X,
    ackman_discipline_X, ackman_activism_Z, ackman_valuation_X_1000⟩
  · intro v b i c
    simp only [michael_burry_signal, spec_aggregate_signal, List.map_cons,
      List.map_nil, List.sum_cons, List.sum_nil]
    congr 1 <;> ring
  · intro metrics items mc
    rfl

/-- C2: in every database reachable by create/approve/reject/close
operations, a memo is approved exactly when exactly one investment row
references it. -/
theorem C2_approved_iff_unique_investment :
    ∀ db : ResearchDB, Reach db → ∀ m ∈ db.memos,
      (m.status = "approved"
        ↔ db.investments.countP (fun i => i.memo_id == m.id) = 1) := by
  intro db hdb m hm
  have h := (reach_inv db hdb).memo_count m hm
  constructor
  · intro ha
    rw [ha, if_pos rfl] at h
    exact h
  · intro hc
    by_contra hne
    rw [if_neg hne] at h
    omega

/-- The database of the C2/C4 witnesses after one memo creation. -/
def dbPending : ResearchDB :=
  (createMemo ResearchDB.init "AAPL" "warren_buffett" "bullish" 85 "thesis"
    ["b1"] ["r1"] 100 120 "medium" 0).1

/-- The witness database after approving memo 0 with no override. -/
def dbApproved : ResearchDB := (approveMemo dbPending 0 none 1).1

/-- The approved memo row of the witness database. -/
def memoApproved : Memo :=
  { id := 0, ticker := "AAPL", analyst := "warren_buffett", signal := "bullish",
    conviction := 85, thesis := "thesis", bull_case := ["b1"], bear_case := ["r1"],
    current_price := 100, target_price := 120, time_horizon := "medium",
    generated_at := 0, status := "approved", reviewed_at := some 1 }

/-- C2 witness: the invariant evaluated on a concrete two-step history
(create, then approve): the approved memo has exactly one investment. -/
theorem C2_approved_iff_unique_investment_witness :
    memoApproved ∈ dbApproved.memos
    ∧ (memoApproved.status = "approved"
        ↔ dbApproved.investments.countP (fun i => i.memo_id == memoApproved.id) = 1) :=
  ⟨by decide,
   C2_approved_iff_unique_investment dbApproved
     (Reach.approve dbPending 0 none 1
       (Reach.create ResearchDB.init "AAPL" "warren_buffett" "bullish" 85 "thesis"
         ["b1"] ["r1"] 100 120 "medium" 0 Reach.init))
     memoApproved (by decide)⟩

/-- After updating the row with the searched key in place, lookup by that
key returns the replacement. -/
theorem find?_map_update {α : Type} (idf : α → Nat) (iid : Nat) (z : α)
    (hz : idf z = iid) :
    ∀ (l : List α) (x : α), l.find? (fun y => idf y == iid) = some x →
      (l.map (fun y => if idf y == iid then z else y)).find?
          (fun y => idf y == iid) = some z := by
  intro l
  induction l with
  | nil => intro x hx; simp at hx
  | cons a t ih =>
    intro x hx
    by_cases hc : (idf a == iid) = true
    · simp only [List.map_cons, hc, if_true]
      rw [List.find?_cons_of_pos]
      simp [hz]
    · simp only [List.map_cons, hc, Bool.false_eq_true, if_false]
      rw [List.find?_cons_of_neg _ (by simp [hc])] at hx
      rw [List.find?_cons_of_neg _ (by simp [hc])]
      exact ih x hx

/-- C4: `approve_memo` is a no-op returning the not-found outcome when
the memo is missing or not pending; on a pending memo it marks the memo
approved with `reviewed_at = today`, appends exactly one active
investment whose entry price is the override if given (else the memo's
current price) and whose entry date is today, and increments the
analyst's `approved_count`. -/
theorem C4_approve_memo_spec :
    ∀ (db : ResearchDB) (memo_id : Nat) (entry_price : Option ℚ) (today : Nat),
      (getMemoById db memo_id = none →
        approveMemo db memo_id entry_price today = (db, none))
      ∧ (∀ m : Memo, getMemoById db memo_id = some m → m.status ≠ "pending" →
          approveMemo db memo_id entry_price today = (db, none))
      ∧ (∀ m : Memo, getMemoById db memo_id = some m → m.status = "pending" →
          (approveMemo db memo_id entry_price today).2
              = some ({ m with status := "approved", reviewed_at := some today },
                  { id := db.next_inv_id, memo_id := memo_id, ticker := m.ticker,
                    analyst := m.analyst, signal := m.signal,
                    entry_price := entry_price.getD m.current_price,
                    entry_date := today, status := "active",
                    exit_price := none, exit_date := none })
          ∧ (approveMemo db memo_id entry_price today).1.investments
              = db.investments ++
                  [{ id := db.next_inv_id, memo_id := memo_id, ticker := m.ticker,
                     analyst := m.analyst, signal := m.signal,
                     entry_price := entry_price.getD m.current_price,
                     entry_date := today, status := "active",
                     exit_price := none, exit_date := none }]
          ∧ getMemoById (approveMemo db memo_id entry_price today).1 memo_id
              = some { m with status := "approved", reviewed_at := some today }
          ∧ ((approveMemo db memo_id entry_price today).1.stats m.analyst).approved_count
              = (db.stats m.analyst).approved_count + 1) := by
  intro db memo_id entry_price today
  refine ⟨approveMemo_not_found db memo_id entry_price today,
    approveMemo_not_pending db memo_id entry_price today, ?_⟩
  intro m hfind hstat
  have hs := approveMemo_success db memo_id entry_price today m hfind hstat
  have hmid := (find?_by_id Memo.id memo_id db.memos m hfind).2
  refine ⟨hs.2, ?_, ?_, ?_⟩
  · rw [hs.1]
  · rw [hs.1]
    exact find?_map_update Memo.id memo_id
      { m with status := "approved", reviewed_at := some today } hmid db.memos m hfind
  · rw [hs.1]
    dsimp only
    rw [if_pos rfl]

/-- The still-pending memo row of the witness database. -/
def memoPending : Memo :=
  { id := 0, ticker := "AAPL", analyst := "warren_buffett", signal := "bullish",
    conviction := 85, thesis := "thesis", bull_case := ["b1"], bear_case := ["r1"],
    current_price := 100, target_price := 120, time_horizon := "medium",
    generated_at := 0, status := "pending", reviewed_at := none }

/-- C4 witness: approving the pending memo of `dbPending` with override
price 50 creates exactly one active investment at entry price 50 and
entry date 3, and bumps the analyst's approved count. -/
theorem C4_approve_memo_spec_witness :
    (approveMemo dbPending 0 (some 50) 3).2
        = some ({ memoPending with status := "approved", reviewed_at := some 3 },
            { id := dbPending.next_inv_id, memo_id := 0, ticker := memoPending.ticker,
              analyst := memoPending.analyst, signal := memoPending.signal,
              entry_price := (some (50 : ℚ)).getD memoPending.current_price,
              entry_date := 3, status := "active",
              exit_price := none, exit_date := none })
    ∧ (approveMemo dbPending 0 (some 50) 3).1.investments
        = dbPending.investments ++
            [{ id := dbPending.next_inv_id, memo_id := 0, ticker := memoPending.ticker,
               analyst := memoPending.analyst, signal := memoPending.signal,
               entry_price := (some (50 : ℚ)).getD memoPending.current_price,
               entry_date := 3, status := "active",
               exit_price := none, exit_date := none }]
    ∧ getMemoById (approveMemo dbPending 0 (some 50) 3).1 0
        = some { memoPending with status := "approved", reviewed_at := some 3 }
    ∧ ((approveMemo dbPending 0 (some 50) 3).1.stats memoPending.analyst).approved_count
        = (dbPending.stats memoPending.analyst).approved_count + 1 :=
  (C4_approve_memo_spec dbPending 0 (some 50) 3).2.2 memoPending (by decide) (by decide)

/-- C3: closing an active investment with positive entry price adds the
signed return `(exit − entry)/entry × 100` (bullish) or
`(entry − exit)/entry × 100` (otherwise) to the analyst's total return,
and bumps the win count exactly when that return is strictly positive —
with the claim's instances: bullish 100→120 is +20 (win), bearish
100→120 is −20 (loss), bearish 100→80 is +20 (win), and a flat close is
not a win. -/
theorem C3_close_investment_return :
    (∀ (db : ResearchDB) (investment_id : Nat) (exit_price : ℚ) (exit_date : Nat)
       (inv : Investment),
      getInvestmentById db investment_id = some inv → inv.status = "active" →
      0 < inv.entry_price →
        ((closeInvestment db investment_id exit_price exit_date).1.stats
            inv.analyst).total_return
            = (db.stats inv.analyst).total_return +
              (if inv.signal = "bullish"
               then (exit_price - inv.entry_price) / inv.entry_price * 100
               else (inv.entry_price - exit_price) / inv.entry_price * 100)
        ∧ ((closeInvestment db investment_id exit_price exit_date).1.stats
            inv.analyst).win_count
            = (db.stats inv.analyst).win_count +
              (if 0 < investmentReturnPct inv.signal inv.entry_price exit_price
               then 1 else 0))
    ∧ investmentReturnPct "bullish" 100 120 = 20
    ∧ 0 < investmentReturnPct "bullish" 100 120
    ∧ investmentReturnPct "bearish" 100 120 = -20
    ∧ ¬ 0 < investmentReturnPct "bearish" 100 120
    ∧ investmentReturnPct "bearish" 100 80 = 20
    ∧ 0 < investmentReturnPct "bearish" 100 80
    ∧ investmentReturnPct "bullish" 100 100 = 0
    ∧ ¬ 0 < investmentReturnPct "bullish" 100 100 := by
  have hbear : ¬ ("bearish" : String) = "bullish" := by decide
  refine ⟨?_,
    by unfold investmentReturnPct; rw [if_pos rfl]; norm_num,
    by unfold investmentReturnPct; rw [if_pos rfl]; norm_num,
    by unfold investmentReturnPct; rw [if_neg hbear]; norm_num,
    by unfold investmentReturnPct; rw [if_neg hbear]; norm_num,
    by unfold investmentReturnPct; rw [if_neg hbear]; norm_num,
    by unfold investmentReturnPct; rw [if_neg hbear]; norm_num,
    by unfold investmentReturnPct; rw [if_pos rfl]; norm_num,
    by unfold investmentReturnPct; rw [if_pos rfl]; norm_num⟩
  intro db investment_id exit_price exit_date inv hfind hstat hentry
  rw [(closeInvestment_success db investment_id exit_price exit_date inv hfind hstat).1]
  dsimp only
  rw [if_pos rfl]
  constructor
  · rfl
  · by_cases hwin : 0 < investmentReturnPct inv.signal inv.entry_price exit_price <;>
      simp [hwin]

/-- The active investment row of the witness database `dbApproved`. -/
def invActive : Investment :=
  { id := 0, memo_id := 0, ticker := "AAPL", analyst := "warren_buffett",
    signal := "bullish", entry_price := 100, entry_date := 1, status := "active",
    exit_price := none, exit_date := none }

/-- C3 witness: closing the concrete bullish investment (entry 100) at
exit 120 adds +20 to the analyst's total return and one win. -/
theorem C3_close_investment_return_witness :
    ((closeInvestment dbApproved 0 120 2).1.stats invActive.analyst).total_return
        = (dbApproved.stats invActive.analyst).total_return +
          (if invActive.signal = "bullish"
           then ((120 : ℚ) - invActive.entry_price) / invActive.entry_price * 100
           else (invActive.entry_price - 120) / invActive.entry_price * 100)
    ∧ ((closeInvestment dbApproved 0 120 2).1.stats invActive.analyst).win_count
        = (dbApproved.stats invActive.analyst).win_count +
          (if 0 < investmentReturnPct invActive.signal invActive.entry_price 120
           then 1 else 0) :=
  C3_close_investment_return.1 dbApproved 0 120 2 invActive
    (by decide) (by decide) (by decide)

/-- C6 (amended): in every reachable database the recomputed stats agree
with the incrementally maintained counters exactly on `total_memos`,
`approved_count` and `win_count`, while the recomputed `total_return`
equals the incrementally maintained sum rounded to two decimals — not
the raw sum. -/
theorem C6_refresh_reconciliation :
    ∀ db : ResearchDB, Reach db → ∀ analyst : String,
      (refreshComputedStats db analyst).total_memos
          = (db.stats analyst).total_memos
      ∧ (refreshComputedStats db analyst).approved_count
          = (db.stats analyst).approved_count
      ∧ (refreshComputedStats db analyst).win_count
          = (db.stats analyst).win_count
      ∧ (refreshComputedStats db analyst).total_return
          = roundTo2 (db.stats analyst).total_return := by
  intro db hdb analyst
  have h := (reach_inv db hdb).stats_eq analyst
  rw [refreshComputedStats_eq db analyst, h]
  exact ⟨rfl, rfl, rfl, rfl⟩

/-- The database of the C6 counterexample: one memo (price 3), approved
with no override, closed at exit price 4 — return 100/3 %. -/
def dbThird : ResearchDB :=
  (closeInvestment
    (approveMemo
      (createMemo ResearchDB.init "T" "alice" "bullish" 80 "t" [] [] 3 4 "short" 0).1
      0 none 1).1
    0 4 2).1

/-- The incrementally stored total return of `dbThird`'s analyst is the
exact 100/3. -/
theorem dbThird_stats_total_return : (dbThird.stats "alice").total_return = 100 / 3 := by
  have hfind : getInvestmentById
      (approveMemo
        (createMemo ResearchDB.init "T" "alice" "bullish" 80 "t" [] [] 3 4 "short" 0).1
        0 none 1).1 0
      = some { id := 0
               memo_id := 0
               ticker := "T"
               analyst := "alice"
               signal := "bullish"
               entry_price := 3
               entry_date := 1
               status := "active"
               exit_price := none
               exit_date := none } := by decide
  have hclose := (closeInvestment_success _ 0 4 2 _ hfind (by decide)).1
  show ((closeInvestment _ 0 4 2).1.stats "alice").total_return = 100 / 3
  rw [hclose]
  dsimp only
  rw [if_pos rfl]
  have hprev : (((approveMemo
      (createMemo ResearchDB.init "T" "alice" "bullish" 80 "t" [] [] 3 4 "short" 0).1
      0 none 1).1).stats "alice").total_return = 0 := by decide
  rw [hprev]
  unfold investmentReturnPct
  rw [if_pos rfl]
  norm_num

/-- The recomputed total return of `dbThird`'s analyst is the rounded
33.33. -/
theorem dbThird_refresh_total_return :
    (refreshComputedStats dbThird "alice").total_return = 3333 / 100 := by
  have hinv : dbThird.investments
      = [{ id := 0
           memo_id := 0
           ticker := "T"
           analyst := "alice"
           signal := "bullish"
           entry_price := 3
           entry_date := 1
           status := "closed"
           exit_price := some 4
           exit_date := some 2 }] := by decide
  rw [refreshComputedStats_eq]
  unfold totalReturnOf
  rw [hinv]
  simp only [List.map_cons, List.map_nil, List.sum_cons, List.sum_nil]
  norm_num [retContrib, investmentReturnPct, roundTo2, round_eq]

/-- C6 counterexample: after create → approve (entry 3) → close (exit 4)
the incremental `total_return` is the exact 100/3 ≈ 33.3333 while
`refresh_analyst_stats` stores `round(100/3, 2) = 33.33`; the two are not
equal, so the recomputed stats do not equal the incrementally maintained
counters as claimed. -/
theorem C6_counterexample :
    (dbThird.stats "alice").total_return = 100 / 3
    ∧ (refreshComputedStats dbThird "alice").total_return = 3333 / 100
    ∧ (refreshComputedStats dbThird "alice").total_return
        ≠ (dbThird.stats "alice").total_return := by
  refine ⟨dbThird_stats_total_return, dbThird_refresh_total_return, ?_⟩
  rw [dbThird_stats_total_return, dbThird_refresh_total_return]
  norm_num

/-- C6 witness: the amended reconciliation applied to the concrete
three-operation history `dbThird`. -/
theorem C6_refresh_reconciliation_witness :
    (refreshComputedStats dbThird "alice").total_memos
        = (dbThird.stats "alice").total_memos
    ∧ (refreshComputedStats dbThird "alice").approved_count
        = (dbThird.stats "alice").approved_count
    ∧ (refreshComputedStats dbThird "alice").win_count
        = (dbThird.stats "alice").win_count
    ∧ (refreshComputedStats dbThird "alice").total_return
        = roundTo2 (dbThird.stats "alice").total_return :=
  C6_refresh_reconciliation dbThird
    (Reach.close _ 0 4 2
      (Reach.approve _ 0 none 1
        (Reach.create ResearchDB.init "T" "alice" "bullish" 80 "t" [] [] 3 4
          "short" 0 Reach.init)))
    "alice"

/-- C7: `refresh_analyst_stats` is idempotent — it reads only the memo
and investment tables, which it never writes, so a second refresh with no
intervening writes stores the same four values. -/
theorem C7_refresh_idempotent :
    ∀ (db : ResearchDB) (analyst b : String),
      (refreshAnalystStats (refreshAnalystStats db analyst) analyst).stats b
        = (refreshAnalystStats db analyst).stats b := by
  intro db analyst b
  unfold refreshAnalystStats updateStatsRow
  dsimp only
  by_cases hb : b = analyst
  · subst hb
    simp
    rfl
  · rw [if_neg hb]
